import Mathlib

/-!
Verification of the medallion-pipeline repository (silver/gold layers).

This file gives a shallow embedding of the cleaning and aggregation
functions of `src/silver_pipeline.py` and `src/gold_pipeline.py` and
proves/refutes the frozen claims about them.

Modelling conventions:
* pandas cells are modelled by `Val` (null / string / int / float); Python
  floats are modelled by `PyF`: a rational number or one of the IEEE
  specials `inf`, `ninf`, `nan` (rounding and arithmetic on finite floats
  are modelled exactly on `ℚ`).
* Strings are Lean `String`s / `List Char`.  The modelled character
  universe for `str.lower`, `str.upper`, `unicodedata.normalize('NFD', ·)`
  and `unicodedata.category · == 'Mn'` is: ASCII, the Latin-1 accented
  letters, and the combining diacritical marks U+0300–U+036F.  Outside
  this universe the modelled functions are the identity / `false`, which
  matches Python on every character appearing in this development.
* `float(<text>)` is modelled by `pyFloat`, covering signs, decimal
  forms (`"12"`, `"12."`, `".5"`, `"12.34"`) and the case-insensitive
  special words `inf` / `infinity` / `nan`; exponent notation and
  underscore separators are outside the modelled subset.
* `pd.to_datetime` (an external library call) is modelled by
  `pd_to_datetime` on the ISO subset `YYYY-MM-DD`, `YYYY-MM-DD HH:MM:SS`
  and `YYYY-MM-DD HH:MM:SS+00:00`, returning UTC epoch seconds; all other
  inputs coerce to null (`errors='coerce'`).  The claims proved below do
  not depend on which strings the parser accepts.
* Tables are `List`s of per-entity row structures; `sort_values` (a stable
  lexsort in pandas when given several columns) is modelled by Mathlib's
  stable `List.insertionSort`; `drop_duplicates(subset=k)` keeps the first
  occurrence per key and is modelled by `drop_duplicate_rows`.
-/

/-! ### Python floats -/

/-- A Python float: a finite rational, or one of the specials. -/
inductive PyF where
  | fin (q : ℚ)
  | inf
  | ninf
  | nan
deriving DecidableEq, Repr

/-- `f >= 0` on Python floats (`nan >= 0` and `-inf >= 0` are false). -/
def PyF.nonneg : PyF → Bool
  | .fin q => decide (0 ≤ q)
  | .inf => true
  | .ninf => false
  | .nan => false

/-- A pandas cell value as read from CSV / produced by cleaning. -/
inductive Val where
  | null
  | str (s : String)
  | int (n : ℤ)
  | float (f : PyF)
deriving DecidableEq, Repr

/-- Lift a CSV cell (string or missing) to a pandas cell. -/
def Val.ofCell : Option String → Val
  | none => .null
  | some s => .str s

/-! ### Characters: whitespace, lower/upper case, combining marks -/

/-- Python `str.strip()` whitespace (ASCII subset: space, TAB, LF, VT, FF, CR). -/
def pyIsSpace (c : Char) : Bool :=
  decide (c.toNat = 32 ∨ (9 ≤ c.toNat ∧ c.toNat ≤ 13))

/-- ASCII decimal digit (Python `str.isdigit` on the modelled universe). -/
def isAsciiDigit (c : Char) : Bool :=
  decide (48 ≤ c.toNat ∧ c.toNat ≤ 57)

/-- Code points that uppercase letters occupy in the modelled universe:
ASCII `A`–`Z` and Latin-1 `À`–`Þ` minus the multiplication sign `×`. -/
def upperCode (n : ℕ) : Bool :=
  decide ((65 ≤ n ∧ n ≤ 90) ∨ (192 ≤ n ∧ n ≤ 214) ∨ (216 ≤ n ∧ n ≤ 222))

/-- Code points that lowercase letters occupy in the modelled universe. -/
def lowerCode (n : ℕ) : Bool :=
  decide ((97 ≤ n ∧ n ≤ 122) ∨ (224 ≤ n ∧ n ≤ 246) ∨ (248 ≤ n ∧ n ≤ 254))

/-- Python `str.lower` on one character (modelled universe: ASCII and
Latin-1; a lowercase letter sits 32 code points above its uppercase). -/
def pyLowerChar (c : Char) : Char :=
  if upperCode c.toNat then Char.ofNat (c.toNat + 32) else c

/-- Python `str.upper` on one character (modelled universe). -/
def pyUpperChar (c : Char) : Char :=
  if lowerCode c.toNat then Char.ofNat (c.toNat - 32) else c

/-- `unicodedata.category c == 'Mn'` on the modelled universe: the
combining diacritical marks U+0300–U+036F. -/
def isMn (c : Char) : Bool :=
  decide (768 ≤ c.toNat ∧ c.toNat ≤ 879)

/-! ### Python `str.strip` on `List Char` -/

/-- `l.strip()` : drop whitespace from both ends. -/
def pyStrip (l : List Char) : List Char :=
  ((l.dropWhile pyIsSpace).reverse.dropWhile pyIsSpace).reverse

/-! ### `float(text)`: the modelled subset of Python float parsing -/

/-- Numeric value of a digit string (total helper). -/
def digitsValue (l : List Char) : ℕ :=
  l.foldl (fun a c => a * 10 + (c.toNat - 48)) 0

/-- Magnitude part of a float literal, as numerator and denominator:
`12`, `12.`, `.5`, `12.34`. -/
def pyFloatMag (l : List Char) : Option (ℕ × ℕ) :=
  match l.splitOn '.' with
  | [ip] =>
    if ip ≠ [] ∧ ip.all isAsciiDigit then some (digitsValue ip, 1) else none
  | [ip, fp] =>
    if (ip ≠ [] ∨ fp ≠ []) ∧ ip.all isAsciiDigit ∧ fp.all isAsciiDigit then
      some (digitsValue ip * 10 ^ fp.length + digitsValue fp, 10 ^ fp.length)
    else none
  | _ => none

/-- Python `float(text)` on the modelled subset (sign, decimal digits with
an optional dot, case-insensitive `inf`/`infinity`/`nan`); `none` models
an uncaught `ValueError`. -/
def pyFloat (l : List Char) : Option PyF :=
  let signed : Bool × List Char :=
    match l with
    | '+' :: r => (false, r)
    | '-' :: r => (true, r)
    | r => (false, r)
  let neg := signed.1
  let body := signed.2
  let low := body.map pyLowerChar
  if low = "inf".data ∨ low = "infinity".data then
    some (if neg then PyF.ninf else PyF.inf)
  else if low = "nan".data then some PyF.nan
  else
    match pyFloatMag body with
    | some nd => some (PyF.fin (mkRat (if neg then -(nd.1 : ℤ) else (nd.1 : ℤ)) nd.2))
    | none => none

/-! ### `_clean_monetary_value` (src/silver_pipeline.py lines 121–151) -/

/-- Map `','` to `'.'` (the `val_str.replace(',', '.')` step). -/
def commaToDot (c : Char) : Char := if c = ',' then '.' else c

/-- Final `return num if num >= 0 else None` of the monetary cleaner. -/
def monetaryGuard (f : PyF) : Val :=
  if f.nonneg then Val.float f else Val.null

/-- The text path of `_clean_monetary_value`: strip, remove `'.'` when
both separators occur (Brazilian thousands format), turn `','` into
`'.'`, then `float(·)`. -/
def monetaryParseChars (l : List Char) : Option PyF :=
  let t0 := pyStrip l
  let t1 := if ',' ∈ t0 ∧ '.' ∈ t0 then t0.filter (fun c => c ≠ '.') else t0
  pyFloat (t1.map commaToDot)

/-- `_clean_monetary_value`: convert a monetary value to a non-negative
float, handling the Brazilian `1.234,56` format; invalid/negative → null.
Total by construction (the Python body catches `ValueError`/`TypeError`). -/
def clean_monetary_value : Val → Val
  | .null => .null
  | .float .nan => .null
  | .float f => monetaryGuard f
  | .int n => monetaryGuard (.fin (n : ℚ))
  | .str s =>
    match monetaryParseChars s.data with
    | some f => monetaryGuard f
    | none => .null

/-! ### `_clean_quantity` (src/silver_pipeline.py lines 154–185) -/

/-- The one Python exception distinguished by the model: `OverflowError`
from `int(float(..)) ` on an infinite value (not caught by the
`except ValueError` handler in `_clean_quantity`). -/
inductive PyErr where
  | overflowError
deriving DecidableEq, Repr

instance {ε α : Type} [DecidableEq ε] [DecidableEq α] : DecidableEq (Except ε α)
  | .ok a, .ok b => decidable_of_iff (a = b) ⟨fun h => h ▸ rfl, fun h => by cases h; rfl⟩
  | .ok _, .error _ => isFalse (fun h => Except.noConfusion h)
  | .error _, .ok _ => isFalse (fun h => Except.noConfusion h)
  | .error a, .error b => decidable_of_iff (a = b) ⟨fun h => h ▸ rfl, fun h => by cases h; rfl⟩

/-- `int(x)` truncation toward zero of a finite float
(`num.tdiv den` is exact truncating division since `den > 0`). -/
def ratTrunc (q : ℚ) : ℤ :=
  q.num.tdiv (q.den : ℤ)

/-- The spelled-out quantity vocabulary of `_clean_quantity`. -/
def quantityWord (t : List Char) : Option ℤ :=
  if t = "one".data then some 1
  else if t = "two".data then some 2
  else if t = "three".data then some 3
  else if t = "four".data then some 4
  else none

/-- `_clean_quantity`: normalise a quantity to `int`.  Null/NaN/empty → 0,
the words one–four → 1–4, otherwise `int(float(str(value).strip().lower()))`
with `ValueError` caught (→ 0).  `int(±inf)` raises an uncaught
`OverflowError`, modelled by `Except.error`.  For numeric input,
`float(str(value))` round-trips, so those branches are written directly. -/
def clean_quantity : Val → Except PyErr ℤ
  | .null => .ok 0
  | .float .nan => .ok 0
  | .float .inf => .error .overflowError
  | .float .ninf => .error .overflowError
  | .float (.fin q) => .ok (ratTrunc q)
  | .int n => .ok n
  | .str s =>
    if s = "" then .ok 0
    else
      let t := (pyStrip s.data).map pyLowerChar
      match quantityWord t with
      | some n => .ok n
      | none =>
        match pyFloat t with
        | some (.fin q) => .ok (ratTrunc q)
        | some .inf => .error .overflowError
        | some .ninf => .error .overflowError
        | some .nan => .ok 0
        | none => .ok 0

/-! ### `_clean_phone` (src/silver_pipeline.py lines 71–96) -/

/-- `phone.replace("+55", "")`: remove every (leftmost, non-overlapping)
occurrence of the substring `+55`. -/
def removePlus55 : List Char → List Char
  | '+' :: '5' :: '5' :: rest => removePlus55 rest
  | c :: rest => c :: removePlus55 rest
  | [] => []

/-- `_clean_phone`: null/empty and the sentinel `invalid_phone`
(case-insensitive) → null; remove `+55`, keep digits, require 10–11. -/
def clean_phone : Option String → Option String
  | none => none
  | some s =>
    if s = "" then none
    else if s.data.map pyLowerChar = "invalid_phone".data then none
    else
      let digits := (removePlus55 s.data).filter isAsciiDigit
      if digits.length < 10 ∨ 11 < digits.length then none
      else some (String.mk digits)

/-- The phone normalizer as the specification words it: strip a `+55`
country-code *prefix* only, then keep digits and require 10–11 of them.
(Second definition for the refinement comparison in claim C5; the source
removes every occurrence of `+55`, not only a prefix.) -/
def clean_phone_spec : Option String → Option String
  | none => none
  | some s =>
    if s = "" then none
    else if s.data.map pyLowerChar = "invalid_phone".data then none
    else
      let body := if s.data.take 3 = ['+', '5', '5'] then s.data.drop 3 else s.data
      let digits := body.filter isAsciiDigit
      if digits.length < 10 ∨ 11 < digits.length then none
      else some (String.mk digits)

/-! ### `_clean_string` (src/silver_pipeline.py lines 52–68): NFD machinery -/

/-- NFD decompositions of the precomposed Latin-1 letters (modelled
universe); the second component is base letter followed by the combining
mark (U+0300 grave, U+0301 acute, U+0302 circumflex, U+0303 tilde,
U+0308 diaeresis, U+030A ring, U+0327 cedilla). -/
def nfdTable : List (Char × List Char) :=
  [ ('à', ['a', '̀']), ('á', ['a', '́']), ('â', ['a', '̂']),
    ('ã', ['a', '̃']), ('ä', ['a', '̈']), ('å', ['a', '̊']),
    ('ç', ['c', '̧']),
    ('è', ['e', '̀']), ('é', ['e', '́']), ('ê', ['e', '̂']),
    ('ë', ['e', '̈']),
    ('ì', ['i', '̀']), ('í', ['i', '́']), ('î', ['i', '̂']),
    ('ï', ['i', '̈']),
    ('ñ', ['n', '̃']),
    ('ò', ['o', '̀']), ('ó', ['o', '́']), ('ô', ['o', '̂']),
    ('õ', ['o', '̃']), ('ö', ['o', '̈']),
    ('ù', ['u', '̀']), ('ú', ['u', '́']), ('û', ['u', '̂']),
    ('ü', ['u', '̈']),
    ('ý', ['y', '́']), ('ÿ', ['y', '̈']),
    ('À', ['A', '̀']), ('Á', ['A', '́']), ('Â', ['A', '̂']),
    ('Ã', ['A', '̃']), ('Ä', ['A', '̈']), ('Å', ['A', '̊']),
    ('Ç', ['C', '̧']),
    ('È', ['E', '̀']), ('É', ['E', '́']), ('Ê', ['E', '̂']),
    ('Ë', ['E', '̈']),
    ('Ì', ['I', '̀']), ('Í', ['I', '́']), ('Î', ['I', '̂']),
    ('Ï', ['I', '̈']),
    ('Ñ', ['N', '̃']),
    ('Ò', ['O', '̀']), ('Ó', ['O', '́']), ('Ô', ['O', '̂']),
    ('Õ', ['O', '̃']), ('Ö', ['O', '̈']),
    ('Ù', ['U', '̀']), ('Ú', ['U', '́']), ('Û', ['U', '̂']),
    ('Ü', ['U', '̈']),
    ('Ý', ['Y', '́']) ]

/-- `unicodedata.normalize('NFD', ·)` on one character of the modelled
universe: decompose a precomposed letter, leave anything else alone. -/
def nfdChar (c : Char) : List Char :=
  match nfdTable.lookup c with
  | some ds => ds
  | none => [c]

/-- `unicodedata.normalize('NFD', ·)` on a character list. -/
def nfdList : List Char → List Char
  | [] => []
  | c :: l => nfdChar c ++ nfdList l

/-- Keep only the non-combining-mark characters. -/
def removeMn (l : List Char) : List Char :=
  l.filter (fun c => !(isMn c))

/-- The body of `_clean_string` on a character list:
strip, lowercase, NFD-decompose, drop the `Mn` marks. -/
def normCore (l : List Char) : List Char :=
  removeMn (nfdList ((pyStrip l).map pyLowerChar))

/-- `_clean_string`: null/empty → null; otherwise trim, lowercase and
strip combining diacritical marks. -/
def clean_string : Option String → Option String
  | none => none
  | some s => if s = "" then none else some (String.mk (normCore s.data))

/-- The non-mark part of the NFD decomposition of one character
(helper for reasoning about `normCore`). -/
def baseChar (c : Char) : Char :=
  (removeMn (nfdChar c)).headD c

/-! ### `_clean_state_code` (src/silver_pipeline.py lines 22–49) -/

/-- The 27 official Brazilian state abbreviations. -/
def valid_states : List String :=
  ["AC", "AL", "AP", "AM", "BA", "CE", "DF", "ES", "GO", "MA",
   "MT", "MS", "MG", "PA", "PB", "PR", "PE", "PI", "RJ", "RN",
   "RS", "RO", "RR", "SC", "SP", "SE", "TO"]

/-- `_clean_state_code`: trim and uppercase, then validate against the
27 Brazilian UFs; anything else → null. -/
def clean_state_code : Option String → Option String
  | none => none
  | some s =>
    if s = "" then none
    else
      let t := String.mk ((pyStrip s.data).map pyUpperChar)
      if t ∈ valid_states then some t else none

/-! ### `pd.to_datetime`, modelled on an ISO subset (external library) -/

/-- Gregorian leap year. -/
def isLeapYear (y : ℕ) : Bool :=
  decide (y % 4 = 0 ∧ (y % 100 ≠ 0 ∨ y % 400 = 0))

/-- Days in a month. -/
def daysInMonth (y m : ℕ) : ℕ :=
  if m = 2 then (if isLeapYear y then 29 else 28)
  else if m = 4 ∨ m = 6 ∨ m = 9 ∨ m = 11 then 30
  else 31

/-- Days from 1970-01-01 to year/month/day (civil-calendar formula,
valid for the parser's accepted years `1970 ≤ y`). -/
def daysSinceEpoch (y m d : ℕ) : ℤ :=
  let y1 := if m ≤ 2 then y - 1 else y
  let era := y1 / 400
  let yoe := y1 % 400
  let mp := (m + 9) % 12
  let doy := (153 * mp + 2) / 5 + d - 1
  let doe := yoe * 365 + yoe / 4 - yoe / 100 + doy
  ((era * 146097 + doe : ℕ) : ℤ) - 719468

/-- A fixed-width all-digit field. -/
def parseDigitsFixed (l : List Char) : Option ℕ :=
  if l ≠ [] ∧ l.all isAsciiDigit then some (digitsValue l) else none

/-- `YYYY-MM-DD` with range checks. -/
def parseDatePart (l : List Char) : Option (ℕ × ℕ × ℕ) :=
  match l.splitOn '-' with
  | [ys, ms, ds] =>
    if ys.length = 4 ∧ ms.length = 2 ∧ ds.length = 2 then
      match parseDigitsFixed ys, parseDigitsFixed ms, parseDigitsFixed ds with
      | some y, some m, some d =>
        if 1970 ≤ y ∧ 1 ≤ m ∧ m ≤ 12 ∧ 1 ≤ d ∧ d ≤ daysInMonth y m then
          some (y, m, d)
        else none
      | _, _, _ => none
    else none
  | _ => none

/-- `HH:MM:SS` → seconds since midnight. -/
def parseTimePart (l : List Char) : Option ℕ :=
  match l.splitOn ':' with
  | [hs, ms, ss] =>
    if hs.length = 2 ∧ ms.length = 2 ∧ ss.length = 2 then
      match parseDigitsFixed hs, parseDigitsFixed ms, parseDigitsFixed ss with
      | some h, some m, some s =>
        if h ≤ 23 ∧ m ≤ 59 ∧ s ≤ 59 then some (h * 3600 + m * 60 + s) else none
      | _, _, _ => none
    else none
  | _ => none

/-- `pd.to_datetime(·, errors='coerce', utc=True)` modelled on the ISO
subset `YYYY-MM-DD[ HH:MM:SS[+00:00]]` → UTC epoch seconds; anything
else coerces to null.  Both silver (`format='mixed', dayfirst=True`) and
gold call sites agree on this subset. -/
def pd_to_datetime (s : String) : Option ℤ :=
  let l := s.data
  let core := if l.length = 25 ∧ l.drop 19 = "+00:00".data then l.take 19 else l
  match core.splitOn ' ' with
  | [dp] => (parseDatePart dp).map (fun v => daysSinceEpoch v.1 v.2.1 v.2.2 * 86400)
  | [dp, tp] =>
    match parseDatePart dp, parseTimePart tp with
    | some v, some t => some (daysSinceEpoch v.1 v.2.1 v.2.2 * 86400 + t)
    | _, _ => none
  | _ => none

/-- `pd.to_datetime` over a nullable cell (`NaN → NaT`). -/
def pd_to_datetime_opt : Option String → Option ℤ
  | none => none
  | some s => pd_to_datetime s

/-! ### Table primitives: stable sort and first-wins dedup -/

/-- `_sort_rows_by`: pandas `sort_values` on several columns is a stable
lexicographic sort (`np.lexsort`); modelled by Mathlib's stable
`List.insertionSort` with a boolean comparator. -/
def sort_rows_by {α : Type} (le : α → α → Bool) (l : List α) : List α :=
  List.insertionSort (fun a b => le a b = true) l

/-- Accumulator recursion for `drop_duplicate_rows`. -/
def dropDupAux {α κ : Type} [DecidableEq κ] (key : α → κ) (seen : List κ) :
    List α → List α
  | [] => []
  | x :: xs =>
    if key x ∈ seen then dropDupAux key seen xs
    else x :: dropDupAux key (key x :: seen) xs

/-- `_drop_duplicate_rows` / `drop_duplicates(subset=…)`: keep the first
occurrence of each key. -/
def drop_duplicate_rows {α κ : Type} [DecidableEq κ] (key : α → κ)
    (l : List α) : List α :=
  dropDupAux key [] l

/-! ### Sort comparators (pandas semantics: nulls last on every column) -/

/-- Code-point lexicographic strict order on character lists
(Python string `<`). -/
def charsLt : List Char → List Char → Bool
  | [], [] => false
  | [], _ :: _ => true
  | _ :: _, [] => false
  | a :: as, b :: bs =>
    if a.toNat < b.toNat then true
    else if b.toNat < a.toNat then false
    else charsLt as bs

/-- Strict order on nullable strings, null greatest (`na_position='last'`
for an ascending column). -/
def optStrLt : Option String → Option String → Bool
  | some a, some b => charsLt a.data b.data
  | some _, none => true
  | none, some _ => false
  | none, none => false

/-- Non-strict comparator for a descending timestamp column with nulls
last. -/
def optTsDescLe : Option ℤ → Option ℤ → Bool
  | some a, some b => decide (b ≤ a)
  | some _, none => true
  | none, some _ => false
  | none, none => true

/-- Strict comparator for a descending timestamp column with nulls last. -/
def optTsDescLt : Option ℤ → Option ℤ → Bool
  | some a, some b => decide (b < a)
  | some _, none => true
  | none, some _ => false
  | none, none => false

/-! ### `_process_customers_table` (src/silver_pipeline.py lines 264–319) -/

/-- A raw customers row (CSV read with `dtype=str`: every cell is a
string or missing). -/
structure RawCustomerRow where
  customer_id : Option String
  state : Option String
  city : Option String
  created_ts : Option String
  phone : Option String
deriving DecidableEq, Repr

/-- A cleaned (silver) customers row. -/
structure CustomerRow where
  customer_id : Option String
  state : Option String
  city : Option String
  created_ts : Option ℤ
  phone : Option String
deriving DecidableEq, Repr

/-- The per-row part of the customers cleaner (all column operations of
`_process_customers_table` are row-local). -/
def cleanCustomerRow (r : RawCustomerRow) : CustomerRow :=
  { customer_id := r.customer_id,
    state := clean_state_code r.state,
    city := clean_string r.city,
    created_ts := pd_to_datetime_opt r.created_ts,
    phone := clean_phone r.phone }

/-- `sort_values(["customer_id", "created_ts"], ascending=[True, False])`. -/
def customerLe (a b : CustomerRow) : Bool :=
  if optStrLt a.customer_id b.customer_id then true
  else if optStrLt b.customer_id a.customer_id then false
  else optTsDescLe a.created_ts b.created_ts

/-- `_process_customers_table`: drop null ids, clean the columns, sort by
(id asc, created_ts desc) and keep the first row per id (latest wins). -/
def process_customers_table (t : List RawCustomerRow) : List CustomerRow :=
  drop_duplicate_rows (fun r => r.customer_id)
    (sort_rows_by customerLe
      ((t.filter (fun r => r.customer_id.isSome)).map cleanCustomerRow))

/-! ### `_process_shipments_table` (src/silver_pipeline.py lines 489–537)
     with `_clean_shipment_dates` (188–224) and
     `_delivery_date_validation` (227–261) -/

/-- A raw shipments row. -/
structure RawShipmentRow where
  order_id : Option String
  carrier : Option String
  shipping_cost : Option String
  shipped_ts : Option String
  delivered_ts : Option String
  delivery_status : Option String
deriving DecidableEq, Repr

/-- A cleaned (silver) shipments row. -/
structure ShipmentRow where
  order_id : Option String
  carrier : Option String
  shipping_cost : Val
  shipped_ts : Option ℤ
  delivered_ts : Option ℤ
  delivery_status : Option String
deriving DecidableEq, Repr

/-- `_clean_shipment_dates` on one row: null the timestamps whose event
the (already normalized) status says did not happen, then parse. -/
def clean_shipment_dates (status : Option String) (sTs dTs : Option String) :
    Option ℤ × Option ℤ :=
  let notShipped := status = some "label_created"
  let notDelivered :=
    status = some "label_created" ∨ status = some "in_transit" ∨
      status = some "lost"
  (pd_to_datetime_opt (if notShipped then none else sTs),
   pd_to_datetime_opt (if notShipped ∨ notDelivered then none else dTs))

/-- The per-row part of the shipments cleaner, before sort/dedup. -/
def cleanShipmentRow (r : RawShipmentRow) : ShipmentRow :=
  let status := clean_string r.delivery_status
  let ts := clean_shipment_dates status r.shipped_ts r.delivered_ts
  { order_id := r.order_id,
    carrier := clean_string r.carrier,
    shipping_cost := clean_monetary_value (Val.ofCell r.shipping_cost),
    shipped_ts := ts.1,
    delivered_ts := ts.2,
    delivery_status := status }

/-- `sort_values(["order_id", "shipped_ts", "delivered_ts"],
ascending=[True, False, False])`. -/
def shipmentLe (a b : ShipmentRow) : Bool :=
  if optStrLt a.order_id b.order_id then true
  else if optStrLt b.order_id a.order_id then false
  else if optTsDescLt a.shipped_ts b.shipped_ts then true
  else if optTsDescLt b.shipped_ts a.shipped_ts then false
  else optTsDescLe a.delivered_ts b.delivered_ts

/-- A row with both timestamps present and `shipped_ts > delivered_ts`
(the `mask_invalid` of `_delivery_date_validation`). -/
def invertedShip (r : ShipmentRow) : Bool :=
  match r.shipped_ts, r.delivered_ts with
  | some a, some b => decide (b < a)
  | _, _ => false

/-- Null both timestamps of a row. -/
def nullifyShipDates (r : ShipmentRow) : ShipmentRow :=
  { r with shipped_ts := none, delivered_ts := none }

/-- `_delivery_date_validation`: null both timestamps on every inverted
row; the second component is the diagnostic count of corrected rows
(`mask_invalid.sum()`, printed as a warning when positive). -/
def delivery_date_validation (l : List ShipmentRow) : List ShipmentRow × ℕ :=
  (l.map (fun r => if invertedShip r then nullifyShipDates r else r),
   (l.filter invertedShip).length)

/-- The shipments cleaner up to (but excluding) the final
`_delivery_date_validation` pass: drop null ids, clean columns, parse
dates, sort, dedup by `order_id`. -/
def shipmentsPreValidation (t : List RawShipmentRow) : List ShipmentRow :=
  drop_duplicate_rows (fun r => r.order_id)
    (sort_rows_by shipmentLe
      ((t.filter (fun r => r.order_id.isSome)).map cleanShipmentRow))

/-- `_process_shipments_table`: the cleaned table together with the
data-quality diagnostic count from the validation pass. -/
def process_shipments_table (t : List RawShipmentRow) : List ShipmentRow × ℕ :=
  delivery_date_validation (shipmentsPreValidation t)

/-! ### `_process_order_items_table` (src/silver_pipeline.py lines 322–367) -/

/-- A raw order-items row. -/
structure RawOrderItemRow where
  order_id : Option String
  product_id : Option String
  quantity : Option String
  unit_price : Option String
  discount_amount : Option String
deriving DecidableEq, Repr

/-- A cleaned (silver) order-items row.  Cell values stay in the dynamic
`Val` universe so that claims about the produced value types are
non-trivial. -/
structure OrderItemRow where
  order_id : Option String
  product_id : Option String
  quantity : Val
  unit_price : Val
  discount_amount : Val
deriving DecidableEq, Repr

/-- The per-row part of the order-items cleaner.  `_clean_quantity` can
raise (uncaught `OverflowError`), which propagates out of the cleaner. -/
def cleanOrderItemRow (r : RawOrderItemRow) : Except PyErr OrderItemRow :=
  match clean_quantity (Val.ofCell r.quantity) with
  | .error e => .error e
  | .ok q =>
    .ok { order_id := r.order_id,
          product_id := r.product_id,
          quantity := Val.int q,
          unit_price := clean_monetary_value (Val.ofCell r.unit_price),
          discount_amount := clean_monetary_value (Val.ofCell r.discount_amount) }

/-- Apply a fallible row cleaner to every row, propagating the first
raised exception. -/
def mapExcept {α β : Type} (f : α → Except PyErr β) : List α → Except PyErr (List β)
  | [] => .ok []
  | x :: xs =>
    match f x with
    | .error e => .error e
    | .ok y =>
      match mapExcept f xs with
      | .error e => .error e
      | .ok ys => .ok (y :: ys)

/-- `sort_values(["order_id", "product_id"], ascending=[True, True])`. -/
def orderItemLe (a b : OrderItemRow) : Bool :=
  if optStrLt a.order_id b.order_id then true
  else if optStrLt b.order_id a.order_id then false
  else !(optStrLt b.product_id a.product_id)

/-- `_process_order_items_table`: drop rows with null ids, clean
quantity and the monetary columns, sort by the composite key and keep
the first row per (order_id, product_id). -/
def process_order_items_table (t : List RawOrderItemRow) :
    Except PyErr (List OrderItemRow) :=
  match mapExcept cleanOrderItemRow
      ((t.filter (fun r => r.order_id.isSome)).filter (fun r => r.product_id.isSome)) with
  | .error e => .error e
  | .ok rows =>
    .ok (drop_duplicate_rows (fun r => (r.order_id, r.product_id))
          (sort_rows_by orderItemLe rows))

/-! ### Gold: finite-float arithmetic (via `mkRat`, so that the kernel
     can evaluate it; extensionally the ordinary `ℚ` operations) -/

/-- `p * q` on `ℚ` via `mkRat`. -/
def ratMul (p q : ℚ) : ℚ := mkRat (p.num * q.num) (p.den * q.den)

/-- `p - q` on `ℚ` via `mkRat`. -/
def ratSub (p q : ℚ) : ℚ :=
  mkRat (p.num * (q.den : ℤ) - q.num * (p.den : ℤ)) (p.den * q.den)

/-- Round `a / b` (with `b > 0`) to the nearest integer, ties to even
(the rounding mode of `numpy`/pandas `round`). -/
def halfEven (a b : ℤ) : ℤ :=
  let f := a.fdiv b
  let r := a - f * b
  if 2 * r < b then f
  else if b < 2 * r then f + 1
  else if f % 2 = 0 then f
  else f + 1

/-- `round(q, 2)` with ties to even. -/
def ratRound2 (q : ℚ) : ℚ := mkRat (halfEven (q.num * 100) (q.den : ℤ)) 100

/-- Float multiplication (IEEE special-value rules). -/
def PyF.mul : PyF → PyF → PyF
  | .fin a, .fin b => .fin (ratMul a b)
  | .nan, _ => .nan
  | _, .nan => .nan
  | .inf, .inf => .inf
  | .inf, .ninf => .ninf
  | .ninf, .inf => .ninf
  | .ninf, .ninf => .inf
  | .inf, .fin b => if 0 < b.num then .inf else if b.num < 0 then .ninf else .nan
  | .fin a, .inf => if 0 < a.num then .inf else if a.num < 0 then .ninf else .nan
  | .ninf, .fin b => if 0 < b.num then .ninf else if b.num < 0 then .inf else .nan
  | .fin a, .ninf => if 0 < a.num then .ninf else if a.num < 0 then .inf else .nan

/-- Float subtraction (IEEE special-value rules). -/
def PyF.sub : PyF → PyF → PyF
  | .fin a, .fin b => .fin (ratSub a b)
  | .nan, _ => .nan
  | _, .nan => .nan
  | .inf, .inf => .nan
  | .ninf, .ninf => .nan
  | .inf, _ => .inf
  | .ninf, _ => .ninf
  | .fin _, .inf => .ninf
  | .fin _, .ninf => .inf

/-- `round(·, 2)` on floats (specials are left unchanged). -/
def PyF.round2 : PyF → PyF
  | .fin q => .fin (ratRound2 q)
  | f => f

/-- `pd.to_numeric(·, errors="coerce").fillna(0)` on one cell: numeric
strings parse, anything unparsable (and null/NaN) becomes 0. -/
def toNumericFill0 (v : Val) : PyF :=
  match v with
  | .null => .fin 0
  | .int n => .fin (mkRat n 1)
  | .float .nan => .fin 0
  | .float f => f
  | .str s =>
    match pyFloat (pyStrip s.data) with
    | some .nan => .fin 0
    | some f => f
    | none => .fin 0

/-! ### `_create_fact_order_items` (src/gold_pipeline.py lines 152–195) -/

/-- A raw gold-input order-items row (silver CSV re-read with pandas
type inference, hence the dynamic `Val` cells). -/
structure RawGoldItemRow where
  order_id : Val
  product_id : Val
  quantity : Val
  unit_price : Val
  discount_amount : Val
deriving DecidableEq, Repr

/-- A `fact_order_items` row. -/
structure FactOrderItemRow where
  order_id : Val
  product_id : Val
  quantity : PyF
  unit_price : PyF
  discount_amount : PyF
  item_net_amount : PyF
deriving DecidableEq, Repr

/-- Per-row computation of `_create_fact_order_items`: coerce the three
numeric columns and compute
`item_net_amount = (quantity * unit_price - discount_amount).round(2)`. -/
def mkFactOrderItem (r : RawGoldItemRow) : FactOrderItemRow :=
  let q := toNumericFill0 r.quantity
  let p := toNumericFill0 r.unit_price
  let d := toNumericFill0 r.discount_amount
  { order_id := r.order_id,
    product_id := r.product_id,
    quantity := q,
    unit_price := p,
    discount_amount := d,
    item_net_amount := PyF.round2 (PyF.sub (PyF.mul q p) d) }

/-- Constructor rank for sorting dynamic cells (nulls last). -/
def valRank : Val → ℕ
  | .str _ => 0
  | .int _ => 1
  | .float _ => 2
  | .null => 3

/-- A strict comparator on floats (`-inf < finite < inf < nan`). -/
def pyfLt : PyF → PyF → Bool
  | .ninf, .ninf => false
  | .ninf, _ => true
  | .fin _, .ninf => false
  | .fin a, .fin b => decide (a < b)
  | .fin _, _ => true
  | .inf, .nan => true
  | .inf, _ => false
  | .nan, _ => false

/-- A strict comparator on dynamic cells (nulls last; only the relative
order of same-typed values matters for the claims). -/
def valLt (a b : Val) : Bool :=
  if valRank a < valRank b then true
  else if valRank b < valRank a then false
  else
    match a, b with
    | .str x, .str y => charsLt x.data y.data
    | .int x, .int y => decide (x < y)
    | .float x, .float y => pyfLt x y
    | _, _ => false

/-- `sort_values(["order_id", "product_id"], ascending=True)` on the fact
table. -/
def factItemLe (a b : FactOrderItemRow) : Bool :=
  if valLt a.order_id b.order_id then true
  else if valLt b.order_id a.order_id then false
  else !(valLt b.product_id a.product_id)

/-- `_create_fact_order_items`. -/
def create_fact_order_items (t : List RawGoldItemRow) : List FactOrderItemRow :=
  sort_rows_by factItemLe (t.map mkFactOrderItem)

/-! ### `_prepare_logistics_data` (src/gold_pipeline.py lines 73–111) -/

/-- A raw gold-input shipments row. -/
structure RawGoldShipmentRow where
  order_id : Val
  carrier : Val
  shipping_cost : Val
  shipped_ts : Val
  delivered_ts : Val
  delivery_status : Val
deriving DecidableEq, Repr

/-- A logistics row produced by `_prepare_logistics_data`. -/
structure LogisticsRow where
  order_id : Val
  carrier : Val
  shipping_cost : PyF
  shipped_ts : Option ℤ
  delivered_ts : Option ℤ
  delivery_time_hours : Option ℚ
  is_late : Bool
deriving DecidableEq, Repr

/-- `pd.to_datetime(·, errors='coerce', utc=True)` on a dynamic cell. -/
def pdToDatetimeVal : Val → Option ℤ
  | .str s => pd_to_datetime s
  | _ => none

/-- `((delivered_ts - shipped_ts).dt.total_seconds() / 3600).round(2)`:
null (NaN) unless both endpoints are present. -/
def deliveryHours : Option ℤ → Option ℤ → Option ℚ
  | some a, some b => some (ratRound2 (mkRat (b - a) 3600))
  | _, _ => none

/-- `delivery_time_hours > 72.0` in pandas: comparing NaN yields `False`. -/
def lateFlag : Option ℚ → Bool
  | some h => decide ((72 : ℚ) < h)
  | none => false

/-- Per-row computation of `_prepare_logistics_data`: coerce
shipping_cost, parse the two timestamps,
`delivery_time_hours = ((delivered - shipped).total_seconds()/3600).round(2)`
(null when either endpoint is null), and
`is_late = delivery_time_hours > 72.0` (a NaN comparison is `False`). -/
def prepLogisticsRow (r : RawGoldShipmentRow) : LogisticsRow :=
  let s := pdToDatetimeVal r.shipped_ts
  let d := pdToDatetimeVal r.delivered_ts
  { order_id := r.order_id,
    carrier := r.carrier,
    shipping_cost := toNumericFill0 r.shipping_cost,
    shipped_ts := s,
    delivered_ts := d,
    delivery_time_hours := deliveryHours s d,
    is_late := lateFlag (deliveryHours s d) }

/-- `_prepare_logistics_data` (row-local; the function adds derived
columns and returns the table in order). -/
def prepare_logistics_data (t : List RawGoldShipmentRow) : List LogisticsRow :=
  t.map prepLogisticsRow

/-! ### Predicates used to state the claims -/

/-- The inputs on which `_clean_quantity` reaches `int(float(·))` with an
infinite float (and therefore raises an uncaught `OverflowError`). -/
def quantityInfiniteInput : Val → Bool
  | .float .inf => true
  | .float .ninf => true
  | .str s =>
    if s = "" then false
    else
      let t := (pyStrip s.data).map pyLowerChar
      match quantityWord t with
      | some _ => false
      | none =>
        match pyFloat t with
        | some .inf => true
        | some .ninf => true
        | _ => false
  | _ => false

/-! ## Theorems -/

/-! ### Generic character/list lemmas -/

theorem mem_of_mem_pyStrip {c : Char} {l : List Char} (h : c ∈ pyStrip l) : c ∈ l := by
  unfold pyStrip at h
  rw [List.mem_reverse] at h
  have h2 := (List.dropWhile_sublist (l := (l.dropWhile pyIsSpace).reverse) (p := pyIsSpace)).mem h
  rw [List.mem_reverse] at h2
  exact (List.dropWhile_sublist (l := l) (p := pyIsSpace)).mem h2

theorem pyStrip_map_comm (f : Char → Char) (hf : ∀ c, pyIsSpace (f c) = pyIsSpace c)
    (l : List Char) : pyStrip (l.map f) = (pyStrip l).map f := by
  have hpf : pyIsSpace ∘ f = pyIsSpace := funext hf
  have hd : ∀ m : List Char, (m.map f).dropWhile pyIsSpace = (m.dropWhile pyIsSpace).map f := by
    intro m
    rw [List.dropWhile_map, hpf]
  unfold pyStrip
  rw [hd, ← List.map_reverse, hd, ← List.map_reverse]

theorem commaToDot_space (c : Char) : pyIsSpace (commaToDot c) = pyIsSpace c := by
  unfold commaToDot
  by_cases h : c = ','
  · subst h; decide
  · rw [if_neg h]

theorem commaToDot_ne_comma (c : Char) : commaToDot c ≠ ',' := by
  unfold commaToDot
  by_cases h : c = ','
  · subst h; decide
  · rw [if_neg h]; exact h

theorem commaToDot_idem (c : Char) : commaToDot (commaToDot c) = commaToDot c := by
  unfold commaToDot
  by_cases h : c = ','
  · subst h; decide
  · rw [if_neg h, if_neg h]

/-! ### Claim C3 — the monetary normalizer -/

/-- C3: for every input (numeric or text) the monetary normalizer returns
null or a non-negative value and never raises (the model is a total
function); `"2.026,00"` parses in Brazilian format to `2026.00`;
`"-5"` and `"abc"` yield null. -/
theorem monetary_null_or_nonneg :
    (∀ v : Val, clean_monetary_value v = Val.null ∨
      ∃ f : PyF, clean_monetary_value v = Val.float f ∧ f.nonneg = true) ∧
    clean_monetary_value (Val.str "2.026,00") = Val.float (PyF.fin 2026) ∧
    clean_monetary_value (Val.str "-5") = Val.null ∧
    clean_monetary_value (Val.str "abc") = Val.null := by
  have hg : ∀ f : PyF, monetaryGuard f = Val.null ∨
      ∃ g : PyF, monetaryGuard f = Val.float g ∧ g.nonneg = true := by
    intro f
    by_cases h : f.nonneg = true
    · exact Or.inr ⟨f, by simp [monetaryGuard, h], h⟩
    · left
      simp [monetaryGuard, h]
  refine ⟨fun v => ?_, by decide, by decide, by decide⟩
  cases v with
  | null => exact Or.inl rfl
  | int n => exact hg _
  | float f =>
    cases f with
    | nan => exact Or.inl rfl
    | fin q => exact hg _
    | inf => exact hg _
    | ninf => exact hg _
  | str s =>
    have he : clean_monetary_value (Val.str s) =
        (match monetaryParseChars s.data with
         | some f => monetaryGuard f
         | none => Val.null) := rfl
    cases hm : monetaryParseChars s.data with
    | none => left; rw [he, hm]
    | some f =>
      rcases hg f with h | ⟨g, hgf, hgn⟩
      · left; rw [he, hm]; exact h
      · exact Or.inr ⟨g, by rw [he, hm]; exact hgf, hgn⟩

/-! ### Claim C10 — comma-only text is parsed with a decimal comma -/

/-- C10: on text containing a comma but no period the monetary normalizer
treats the comma as the decimal separator: the input parses exactly like
the same text with `','` replaced by `'.'`, and `"5,5"` yields `5.5`. -/
theorem monetary_comma_decimal :
    (∀ s : String, ',' ∈ s.data → '.' ∉ s.data →
      clean_monetary_value (Val.str s) =
        clean_monetary_value (Val.str (String.mk (s.data.map commaToDot)))) ∧
    clean_monetary_value (Val.str "5,5") = Val.float (PyF.fin (mkRat 11 2)) := by
  refine ⟨fun s hcomma hdot => ?_, by decide⟩
  have key : monetaryParseChars s.data = monetaryParseChars (s.data.map commaToDot) := by
    have hdot0 : '.' ∉ pyStrip s.data := fun h => hdot (mem_of_mem_pyStrip h)
    have hmap : pyStrip (s.data.map commaToDot) = (pyStrip s.data).map commaToDot :=
      pyStrip_map_comm commaToDot commaToDot_space s.data
    have hcomma1 : ',' ∉ (pyStrip s.data).map commaToDot := by
      intro h
      rcases List.mem_map.mp h with ⟨c, _, hc⟩
      exact commaToDot_ne_comma c hc
    show (let t0 := pyStrip s.data
          let t1 := if ',' ∈ t0 ∧ '.' ∈ t0 then t0.filter (fun c => c ≠ '.') else t0
          pyFloat (t1.map commaToDot)) =
        (let t0 := pyStrip (s.data.map commaToDot)
         let t1 := if ',' ∈ t0 ∧ '.' ∈ t0 then t0.filter (fun c => c ≠ '.') else t0
         pyFloat (t1.map commaToDot))
    simp only
    rw [if_neg (fun h => hdot0 h.2), hmap, if_neg (fun h => hcomma1 h.1)]
    rw [List.map_map]
    congr 1
    apply List.map_congr_left
    intro c _
    exact (commaToDot_idem c).symm
  show (match monetaryParseChars s.data with
        | some f => monetaryGuard f
        | none => Val.null) =
      (match monetaryParseChars (String.mk (s.data.map commaToDot)).data with
        | some f => monetaryGuard f
        | none => Val.null)
  rw [show (String.mk (s.data.map commaToDot)).data = s.data.map commaToDot from rfl, ← key]

theorem monetary_comma_decimal_witness :
    ',' ∈ "5,5".data ∧ '.' ∉ "5,5".data ∧
      clean_monetary_value (Val.str "5,5") =
        clean_monetary_value (Val.str (String.mk ("5,5".data.map commaToDot))) :=
  ⟨by decide, by decide, monetary_comma_decimal.1 "5,5" (by decide) (by decide)⟩

/-! ### Claim C4 — the quantity normalizer (corrected: `int(float("inf"))`
raises an uncaught `OverflowError`) -/

/-- C4 counterexample: the quantity normalizer does raise.  On the input
`"inf"`, `float("inf")` succeeds and `int(inf)` raises `OverflowError`,
which the `except ValueError` handler does not catch. -/
theorem clean_quantity_inf_raises :
    clean_quantity (Val.str "inf") = Except.error PyErr.overflowError := by
  decide

theorem string_mk_data (l : List Char) : (String.mk l).data = l := rfl

theorem quantPairOk {v : Val} (n : ℤ) (h1 : quantityInfiniteInput v = false)
    (h2 : clean_quantity v = Except.ok n) :
    (quantityInfiniteInput v = true →
      clean_quantity v = Except.error PyErr.overflowError) ∧
    (quantityInfiniteInput v = false → ∃ m : ℤ, clean_quantity v = Except.ok m) :=
  ⟨fun h => Bool.noConfusion (h1.symm.trans h), fun _ => ⟨n, h2⟩⟩

theorem quantPairErr {v : Val} (h1 : quantityInfiniteInput v = true)
    (h2 : clean_quantity v = Except.error PyErr.overflowError) :
    (quantityInfiniteInput v = true →
      clean_quantity v = Except.error PyErr.overflowError) ∧
    (quantityInfiniteInput v = false → ∃ m : ℤ, clean_quantity v = Except.ok m) :=
  ⟨fun _ => h2, fun h => Bool.noConfusion (h1.symm.trans h)⟩

/-- C4 (amended): the quantity normalizer returns an integer for every
input except those parsing to an infinite float, on which it raises an
uncaught `OverflowError`: null/empty → 0, the case-insensitive words
one–four → 1–4, other inputs are parsed as a possibly decimal number and
truncated toward zero, and unparsable inputs (including NaN) → 0. -/
theorem clean_quantity_amended :
    (∀ v : Val,
      (quantityInfiniteInput v = true →
        clean_quantity v = Except.error PyErr.overflowError) ∧
      (quantityInfiniteInput v = false → ∃ n : ℤ, clean_quantity v = Except.ok n)) ∧
    clean_quantity Val.null = Except.ok 0 ∧
    clean_quantity (Val.str "") = Except.ok 0 ∧
    clean_quantity (Val.str "two") = Except.ok 2 ∧
    clean_quantity (Val.str " ThRee ") = Except.ok 3 ∧
    clean_quantity (Val.str "3.0") = Except.ok 3 ∧
    clean_quantity (Val.str "banana") = Except.ok 0 ∧
    (∀ (s : String) (q : ℚ), s ≠ "" →
      quantityWord ((pyStrip s.data).map pyLowerChar) = none →
      pyFloat ((pyStrip s.data).map pyLowerChar) = some (PyF.fin q) →
      clean_quantity (Val.str s) = Except.ok (ratTrunc q)) := by
  refine ⟨fun v => ?_, by decide, by decide, by decide, by decide, by decide, by decide,
    fun s q hs hw hf => ?_⟩
  · cases v with
    | null => exact quantPairOk 0 rfl rfl
    | int n => exact quantPairOk n rfl rfl
    | float f =>
      cases f with
      | fin q => exact quantPairOk (ratTrunc q) rfl rfl
      | nan => exact quantPairOk 0 rfl rfl
      | inf => exact quantPairErr rfl rfl
      | ninf => exact quantPairErr rfl rfl
    | str s =>
      by_cases hs : s = ""
      · subst hs
        exact quantPairOk 0 rfl rfl
      · have he : clean_quantity (Val.str s) =
            (match quantityWord ((pyStrip s.data).map pyLowerChar) with
             | some n => Except.ok n
             | none =>
               match pyFloat ((pyStrip s.data).map pyLowerChar) with
               | some (.fin q) => Except.ok (ratTrunc q)
               | some .inf => Except.error .overflowError
               | some .ninf => Except.error .overflowError
               | some .nan => Except.ok 0
               | none => Except.ok 0) := by
          simp only [clean_quantity, if_neg hs]
        have hq : quantityInfiniteInput (Val.str s) =
            (match quantityWord ((pyStrip s.data).map pyLowerChar) with
             | some _ => false
             | none =>
               match pyFloat ((pyStrip s.data).map pyLowerChar) with
               | some .inf => true
               | some .ninf => true
               | _ => false) := by
          simp only [quantityInfiniteInput, if_neg hs]
        cases hw : quantityWord ((pyStrip s.data).map pyLowerChar) with
        | some n =>
          refine quantPairOk n ?_ ?_
          · rw [hq, hw]
          · rw [he, hw]
        | none =>
          cases hf : pyFloat ((pyStrip s.data).map pyLowerChar) with
          | none =>
            refine quantPairOk 0 ?_ ?_
            · rw [hq, hw, hf]
            · rw [he, hw, hf]
          | some f =>
            cases f with
            | fin q =>
              refine quantPairOk (ratTrunc q) ?_ ?_
              · rw [hq, hw, hf]
              · rw [he, hw, hf]
            | nan =>
              refine quantPairOk 0 ?_ ?_
              · rw [hq, hw, hf]
              · rw [he, hw, hf]
            | inf =>
              refine quantPairErr ?_ ?_
              · rw [hq, hw, hf]
              · rw [he, hw, hf]
            | ninf =>
              refine quantPairErr ?_ ?_
              · rw [hq, hw, hf]
              · rw [he, hw, hf]
  · simp only [clean_quantity, if_neg hs, hw, hf]

theorem clean_quantity_amended_witness :
    clean_quantity (Val.str " 7.9 ") = Except.ok 7 := by
  have h := clean_quantity_amended.2.2.2.2.2.2.2 " 7.9 " (mkRat 79 10)
    (by decide) (by decide) (by decide)
  exact h.trans (by decide)

/-! ### Claim C5 — the phone normalizer (corrected: `replace("+55", "")`
removes every occurrence, not only a prefix) -/

/-- C5 counterexample: on `"4002-8922+55"` the code removes the
non-prefix `+55` and rejects the remaining 8 digits (→ null), while the
procedure worded in the claim (strip only a `+55` *prefix*, then keep
digits) accepts the 10 digits `4002892255`. -/
theorem clean_phone_counterexample :
    clean_phone (some "4002-8922+55") = none ∧
    clean_phone_spec (some "4002-8922+55") = some "4002892255" ∧
    clean_phone (some "4002-8922+55") ≠ clean_phone_spec (some "4002-8922+55") := by
  refine ⟨by decide, by decide, by decide⟩

/-- C5 (amended): the phone normalizer returns null or a digit-only
string of length 10 or 11; null/empty and the case-insensitive sentinel
`invalid_phone` → null; otherwise every occurrence of the substring
`+55` is removed (not only a country-code prefix), every non-digit is
dropped, and the result is kept only when 10 or 11 digits remain. -/
theorem clean_phone_amended :
    (∀ v : Option String, clean_phone v = none ∨
      ∃ s : String, clean_phone v = some s ∧ s.data.all isAsciiDigit = true ∧
        (s.data.length = 10 ∨ s.data.length = 11)) ∧
    clean_phone none = none ∧
    clean_phone (some "") = none ∧
    (∀ s : String, s.data.map pyLowerChar = "invalid_phone".data →
      clean_phone (some s) = none) ∧
    (∀ s : String, s ≠ "" → s.data.map pyLowerChar ≠ "invalid_phone".data →
      clean_phone (some s) =
        (if ((removePlus55 s.data).filter isAsciiDigit).length < 10 ∨
            11 < ((removePlus55 s.data).filter isAsciiDigit).length then none
         else some (String.mk ((removePlus55 s.data).filter isAsciiDigit)))) ∧
    clean_phone (some "(11) 4002-8922") = some "1140028922" := by
  refine ⟨fun v => ?_, rfl, by decide, fun s h => ?_, fun s h1 h2 => ?_, by decide⟩
  · cases v with
    | none => exact Or.inl rfl
    | some s =>
      by_cases h1 : s = ""
      · subst h1; exact Or.inl (by decide)
      · by_cases h2 : s.data.map pyLowerChar = "invalid_phone".data
        · left
          simp only [clean_phone, if_neg h1, if_pos h2]
        · have he : clean_phone (some s) =
              (if ((removePlus55 s.data).filter isAsciiDigit).length < 10 ∨
                  11 < ((removePlus55 s.data).filter isAsciiDigit).length then none
               else some (String.mk ((removePlus55 s.data).filter isAsciiDigit))) := by
            simp only [clean_phone, if_neg h1, if_neg h2]
          by_cases h3 : ((removePlus55 s.data).filter isAsciiDigit).length < 10 ∨
              11 < ((removePlus55 s.data).filter isAsciiDigit).length
          · left; rw [he, if_pos h3]
          · right
            refine ⟨String.mk ((removePlus55 s.data).filter isAsciiDigit),
              by rw [he, if_neg h3], ?_, by rw [string_mk_data]; omega⟩
            rw [List.all_eq_true]
            intro c hc
            exact (List.mem_filter.mp hc).2
  · have hne : s ≠ "" := by
      intro he
      subst he
      exact (by decide : ¬ ("".data.map pyLowerChar = "invalid_phone".data)) h
    simp only [clean_phone, if_neg hne, if_pos h]
  · simp only [clean_phone, if_neg h1, if_neg h2]

theorem clean_phone_amended_witness :
    clean_phone (some "INVALID_phone") = none :=
  clean_phone_amended.2.2.2.1 "INVALID_phone" (by decide)

/-! ### Lemmas about the table primitives -/

theorem mem_sort_rows_by {α : Type} {le : α → α → Bool} {l : List α} {x : α} :
    x ∈ sort_rows_by le l ↔ x ∈ l :=
  List.mem_insertionSort (fun a b => le a b = true)

theorem mem_of_mem_dropDupAux {α κ : Type} [DecidableEq κ] (key : α → κ) :
    ∀ (seen : List κ) (l : List α) (x : α), x ∈ dropDupAux key seen l → x ∈ l := by
  intro seen l
  induction l generalizing seen with
  | nil => intro x h; cases h
  | cons a as ih =>
    intro x h
    unfold dropDupAux at h
    by_cases hk : key a ∈ seen
    · rw [if_pos hk] at h
      exact List.mem_cons_of_mem a (ih seen x h)
    · rw [if_neg hk] at h
      rcases List.mem_cons.mp h with h1 | h1
      · exact h1 ▸ List.mem_cons_self a as
      · exact List.mem_cons_of_mem a (ih _ x h1)

theorem mem_of_mem_drop_duplicate_rows {α κ : Type} [DecidableEq κ] (key : α → κ)
    {l : List α} {x : α} (h : x ∈ drop_duplicate_rows key l) : x ∈ l :=
  mem_of_mem_dropDupAux key [] l x h

theorem mapExcept_mem {α β : Type} (f : α → Except PyErr β) :
    ∀ (l : List α) (out : List β), mapExcept f l = Except.ok out →
      ∀ y ∈ out, ∃ x ∈ l, f x = Except.ok y := by
  intro l
  induction l with
  | nil =>
    intro out h y hy
    unfold mapExcept at h
    cases h
    cases hy
  | cons a as ih =>
    intro out h y hy
    unfold mapExcept at h
    cases hfa : f a with
    | error e => rw [hfa] at h; cases h
    | ok b =>
      rw [hfa] at h
      cases hrest : mapExcept f as with
      | error e => rw [hrest] at h; cases h
      | ok ys =>
        rw [hrest] at h
        cases h
        rcases List.mem_cons.mp hy with h1 | h1
        · exact ⟨a, List.mem_cons_self a as, h1 ▸ hfa⟩
        · rcases ih ys hrest y h1 with ⟨x, hx, hfx⟩
          exact ⟨x, List.mem_cons_of_mem a hx, hfx⟩

/-! ### Claim C1 — shipment date consistency -/

/-- C1: in the table returned by the shipments cleaner no row has both
timestamps present with `shipped_ts > delivered_ts`; every row that
reaches the validation pass inverted has both timestamps nulled in the
output; and the recorded diagnostic count equals the number of inverted
rows seen by the validation pass. -/
theorem shipments_consistency (t : List RawShipmentRow) :
    (∀ r ∈ (process_shipments_table t).1, ∀ a b : ℤ,
      r.shipped_ts = some a → r.delivered_ts = some b → a ≤ b) ∧
    (∀ r ∈ shipmentsPreValidation t, invertedShip r = true →
      nullifyShipDates r ∈ (process_shipments_table t).1) ∧
    (process_shipments_table t).2 =
      ((shipmentsPreValidation t).filter invertedShip).length := by
  refine ⟨?_, ?_, rfl⟩
  · intro r hr a b ha hb
    have hmap : (process_shipments_table t).1 =
        (shipmentsPreValidation t).map
          (fun r => if invertedShip r then nullifyShipDates r else r) := rfl
    rw [hmap] at hr
    rcases List.mem_map.mp hr with ⟨r0, _, hr0⟩
    by_cases hinv : invertedShip r0 = true
    · rw [if_pos hinv] at hr0
      rw [← hr0] at ha
      cases ha
    · rw [if_neg hinv] at hr0
      subst hr0
      unfold invertedShip at hinv
      rw [ha, hb] at hinv
      simp only [decide_eq_true_eq] at hinv
      omega
  · intro r hr hinv
    have hmap : (process_shipments_table t).1 =
        (shipmentsPreValidation t).map
          (fun r => if invertedShip r then nullifyShipDates r else r) := rfl
    rw [hmap]
    have h2 := List.mem_map_of_mem
      (fun r => if invertedShip r then nullifyShipDates r else r) hr
    simpa [hinv] using h2

theorem shipments_consistency_witness :
    nullifyShipDates
      { order_id := some "o1", carrier := none, shipping_cost := Val.null,
        shipped_ts := some 1704412800, delivered_ts := some 1704153600,
        delivery_status := some "delivered" } ∈
      (process_shipments_table
        [{ order_id := some "o1", carrier := none, shipping_cost := none,
           shipped_ts := some "2024-01-05 00:00:00",
           delivered_ts := some "2024-01-02 00:00:00",
           delivery_status := some "delivered" }]).1 :=
  (shipments_consistency _).2.1
    { order_id := some "o1", carrier := none, shipping_cost := Val.null,
      shipped_ts := some 1704412800, delivered_ts := some 1704153600,
      delivery_status := some "delivered" }
    (by decide) (by decide)

/-! ### Claim C7 — order-items quantities (corrected: integers, but
possibly negative) -/

/-- C7 counterexample: a quantity of `"-5"` passes through the cleaner
as the negative integer `-5` (there is no non-negativity check in
`_clean_quantity`), so the produced quantities are not all non-negative. -/
theorem order_items_negative_quantity :
    process_order_items_table
        [{ order_id := some "o1", product_id := some "p1",
           quantity := some "-5", unit_price := some "10",
           discount_amount := some "0" }] =
      Except.ok
        [{ order_id := some "o1", product_id := some "p1",
           quantity := Val.int (-5), unit_price := Val.float (PyF.fin 10),
           discount_amount := Val.float (PyF.fin 0) }] ∧
    (-5 : ℤ) < 0 := by
  refine ⟨by decide, by decide⟩

/-- C7 (amended): when the order-items cleaner returns a table, every
quantity cell of that table holds an integer value (possibly negative). -/
theorem order_items_quantity_integer (t : List RawOrderItemRow)
    (out : List OrderItemRow) (h : process_order_items_table t = Except.ok out) :
    ∀ r ∈ out, ∃ n : ℤ, r.quantity = Val.int n := by
  intro r hr
  unfold process_order_items_table at h
  cases hm : mapExcept cleanOrderItemRow
      ((t.filter (fun r => r.order_id.isSome)).filter (fun r => r.product_id.isSome)) with
  | error e => rw [hm] at h; cases h
  | ok rows =>
    rw [hm] at h
    cases h
    have h1 : r ∈ sort_rows_by orderItemLe rows := mem_of_mem_drop_duplicate_rows _ hr
    have h2 : r ∈ rows := mem_sort_rows_by.mp h1
    rcases mapExcept_mem cleanOrderItemRow _ rows hm r h2 with ⟨raw, _, hraw⟩
    unfold cleanOrderItemRow at hraw
    cases hq : clean_quantity (Val.ofCell raw.quantity) with
    | error e => rw [hq] at hraw; cases hraw
    | ok q =>
      rw [hq] at hraw
      cases hraw
      exact ⟨q, rfl⟩

theorem order_items_quantity_integer_witness :
    ∃ n : ℤ,
      (OrderItemRow.quantity
        { order_id := some "o1", product_id := some "p1",
          quantity := Val.int 2, unit_price := Val.float (PyF.fin 10),
          discount_amount := Val.null }) = Val.int n :=
  order_items_quantity_integer
    [{ order_id := some "o1", product_id := some "p1",
       quantity := some "two", unit_price := some "10",
       discount_amount := none }]
    [{ order_id := some "o1", product_id := some "p1",
       quantity := Val.int 2, unit_price := Val.float (PyF.fin 10),
       discount_amount := Val.null }]
    (by decide) _ (by decide)

/-! ### Claim C6 — `fact_order_items.item_net_amount` -/

/-- C6: every row of the gold `fact_order_items` table satisfies
`item_net_amount = round(quantity * unit_price - discount_amount, 2)`,
the three operands being the row's values after numeric coercion
(non-numeric → 0). -/
theorem fact_order_items_net (t : List RawGoldItemRow) :
    ∀ r ∈ create_fact_order_items t,
      r.item_net_amount =
        PyF.round2 (PyF.sub (PyF.mul r.quantity r.unit_price) r.discount_amount) := by
  intro r hr
  unfold create_fact_order_items at hr
  have h1 : r ∈ (t.map mkFactOrderItem) := mem_sort_rows_by.mp hr
  rcases List.mem_map.mp h1 with ⟨raw, _, hraw⟩
  subst hraw
  rfl

theorem fact_order_items_net_witness :
    (mkFactOrderItem
        { order_id := Val.str "o1", product_id := Val.str "p1",
          quantity := Val.int 2, unit_price := Val.str "10",
          discount_amount := Val.str "0.5" }).item_net_amount =
      PyF.round2
        (PyF.sub
          (PyF.mul
            (mkFactOrderItem
              { order_id := Val.str "o1", product_id := Val.str "p1",
                quantity := Val.int 2, unit_price := Val.str "10",
                discount_amount := Val.str "0.5" }).quantity
            (mkFactOrderItem
              { order_id := Val.str "o1", product_id := Val.str "p1",
                quantity := Val.int 2, unit_price := Val.str "10",
                discount_amount := Val.str "0.5" }).unit_price)
          (mkFactOrderItem
            { order_id := Val.str "o1", product_id := Val.str "p1",
              quantity := Val.int 2, unit_price := Val.str "10",
              discount_amount := Val.str "0.5" }).discount_amount) :=
  fact_order_items_net
    [{ order_id := Val.str "o1", product_id := Val.str "p1",
       quantity := Val.int 2, unit_price := Val.str "10",
       discount_amount := Val.str "0.5" }]
    _ (by decide)

/-! ### Claim C8 — the `is_late` flag -/

theorem lateFlag_iff (o : Option ℚ) :
    lateFlag o = true ↔ ∃ h : ℚ, o = some h ∧ 72 < h := by
  cases o with
  | none =>
    simp only [lateFlag]
    constructor
    · intro h; cases h
    · rintro ⟨h, hh, _⟩; cases hh
  | some x =>
    simp only [lateFlag, decide_eq_true_eq]
    constructor
    · intro h; exact ⟨x, rfl, h⟩
    · rintro ⟨h, hh, hgt⟩
      cases hh
      exact hgt

/-- C8: in the gold logistics derivation, `is_late` is true exactly when
`delivery_time_hours` is present and strictly greater than 72; when the
hours value is null (an endpoint missing or unparsable) `is_late` is
never true. -/
theorem logistics_is_late (t : List RawGoldShipmentRow) :
    ∀ r ∈ prepare_logistics_data t,
      (r.is_late = true ↔
        ∃ h : ℚ, r.delivery_time_hours = some h ∧ 72 < h) := by
  intro r hr
  rcases List.mem_map.mp hr with ⟨raw, _, hraw⟩
  subst hraw
  exact lateFlag_iff _

theorem logistics_is_late_witness :
    (prepLogisticsRow
      { order_id := Val.str "o1", carrier := Val.null, shipping_cost := Val.null,
        shipped_ts := Val.str "2024-01-01 00:00:00",
        delivered_ts := Val.str "2024-01-05 00:00:00",
        delivery_status := Val.null }).is_late = true :=
  (logistics_is_late
    [{ order_id := Val.str "o1", carrier := Val.null, shipping_cost := Val.null,
       shipped_ts := Val.str "2024-01-01 00:00:00",
       delivered_ts := Val.str "2024-01-05 00:00:00",
       delivery_status := Val.null }]
    _ (by decide)).mpr ⟨96, by decide, by decide⟩

/-! ### Order lemmas for the sort comparators -/

theorem char_toNat_inj {a b : Char} (h : a.toNat = b.toNat) : a = b := by
  cases a with
  | mk va ha =>
    cases b with
    | mk vb hb =>
      have hv : va = vb := by
        have h2 : va.toNat = vb.toNat := h
        cases va with
        | mk fa =>
          cases vb with
          | mk fb =>
            have hf : fa = fb := BitVec.eq_of_toNat_eq h2
            rw [hf]
      subst hv
      rfl

theorem charsLt_irrefl : ∀ l : List Char, charsLt l l = false := by
  intro l
  induction l with
  | nil => rfl
  | cons a as ih =>
    unfold charsLt
    rw [if_neg (Nat.lt_irrefl _), if_neg (Nat.lt_irrefl _)]
    exact ih

theorem charsLt_asymm : ∀ a b : List Char, charsLt a b = true → charsLt b a = false := by
  intro a
  induction a with
  | nil =>
    intro b hab
    cases b with
    | nil => cases hab
    | cons y ys => rfl
  | cons x xs ih =>
    intro b hab
    cases b with
    | nil => cases hab
    | cons y ys =>
      unfold charsLt at hab ⊢
      by_cases h1 : x.toNat < y.toNat
      · rw [if_neg (by omega), if_pos h1]
      · rw [if_neg h1] at hab
        by_cases h2 : y.toNat < x.toNat
        · rw [if_pos h2] at hab
          cases hab
        · rw [if_neg h2] at hab
          rw [if_neg h2, if_neg h1]
          exact ih ys hab

theorem charsLt_conn : ∀ a b : List Char,
    charsLt a b = false → charsLt b a = false → a = b := by
  intro a
  induction a with
  | nil =>
    intro b hab _
    cases b with
    | nil => rfl
    | cons y ys => cases hab
  | cons x xs ih =>
    intro b hab hba
    cases b with
    | nil => cases hba
    | cons y ys =>
      unfold charsLt at hab hba
      by_cases h1 : x.toNat < y.toNat
      · rw [if_pos h1] at hab; cases hab
      · by_cases h2 : y.toNat < x.toNat
        · rw [if_pos h2] at hba; cases hba
        · rw [if_neg h1, if_neg h2] at hab
          rw [if_neg h2, if_neg h1] at hba
          have hx : x = y := char_toNat_inj (by omega)
          rw [hx, ih ys hab hba]

theorem charsLt_trans : ∀ a b c : List Char,
    charsLt a b = true → charsLt b c = true → charsLt a c = true := by
  intro a
  induction a with
  | nil =>
    intro b c hab hbc
    cases b with
    | nil => cases hab
    | cons y ys =>
      cases c with
      | nil => cases hbc
      | cons z zs => rfl
  | cons x xs ih =>
    intro b c hab hbc
    cases b with
    | nil => cases hab
    | cons y ys =>
      cases c with
      | nil => cases hbc
      | cons z zs =>
        unfold charsLt at hab hbc ⊢
        by_cases h1 : x.toNat < y.toNat
        · by_cases h2 : y.toNat < z.toNat
          · rw [if_pos (by omega)]
          · rw [if_neg h2] at hbc
            by_cases h3 : z.toNat < y.toNat
            · rw [if_pos h3] at hbc; cases hbc
            · rw [if_pos (by omega)]
        · rw [if_neg h1] at hab
          by_cases h1b : y.toNat < x.toNat
          · rw [if_pos h1b] at hab; cases hab
          · rw [if_neg h1b] at hab
            by_cases h2 : y.toNat < z.toNat
            · rw [if_pos (by omega)]
            · rw [if_neg h2] at hbc
              by_cases h3 : z.toNat < y.toNat
              · rw [if_pos h3] at hbc; cases hbc
              · rw [if_neg h3] at hbc
                rw [if_neg (by omega), if_neg (by omega)]
                exact ih ys zs hab hbc

theorem string_data_inj {s t : String} (h : s.data = t.data) : s = t := by
  cases s
  cases t
  simp only at h
  rw [h]

theorem optStrLt_irrefl (x : Option String) : optStrLt x x = false := by
  cases x with
  | none => rfl
  | some s => exact charsLt_irrefl s.data

theorem optStrLt_asymm {x y : Option String} (h : optStrLt x y = true) :
    optStrLt y x = false := by
  cases x with
  | none =>
    cases y with
    | none => cases h
    | some t => cases h
  | some s =>
    cases y with
    | none => rfl
    | some t => exact charsLt_asymm _ _ h

theorem optStrLt_conn {x y : Option String} (hxy : optStrLt x y = false)
    (hyx : optStrLt y x = false) : x = y := by
  cases x with
  | none =>
    cases y with
    | none => rfl
    | some t => cases hyx
  | some s =>
    cases y with
    | none => cases hxy
    | some t =>
      have : s = t := string_data_inj (charsLt_conn _ _ hxy hyx)
      rw [this]

theorem optStrLt_trans {x y z : Option String} (hxy : optStrLt x y = true)
    (hyz : optStrLt y z = true) : optStrLt x z = true := by
  cases y with
  | none =>
    cases z with
    | none => cases hyz
    | some t => cases hyz
  | some sy =>
    cases x with
    | none => cases hxy
    | some sx =>
      cases z with
      | none => rfl
      | some sz => exact charsLt_trans _ _ _ hxy hyz

theorem optTsDescLe_total (x y : Option ℤ) :
    optTsDescLe x y = true ∨ optTsDescLe y x = true := by
  cases x <;> cases y <;> simp [optTsDescLe] <;> omega

theorem optTsDescLe_trans {x y z : Option ℤ} (hxy : optTsDescLe x y = true)
    (hyz : optTsDescLe y z = true) : optTsDescLe x z = true := by
  cases x <;> cases y <;> cases z <;>
    simp [optTsDescLe] at hxy hyz ⊢ <;> omega

theorem customerLe_iff (a b : CustomerRow) :
    customerLe a b = true ↔
      optStrLt a.customer_id b.customer_id = true ∨
        (a.customer_id = b.customer_id ∧
          optTsDescLe a.created_ts b.created_ts = true) := by
  unfold customerLe
  by_cases h1 : optStrLt a.customer_id b.customer_id = true
  · rw [if_pos h1]
    simp only [true_iff]
    exact Or.inl h1
  · rw [if_neg h1]
    by_cases h2 : optStrLt b.customer_id a.customer_id = true
    · rw [if_pos h2]
      constructor
      · intro h; cases h
      · intro h
        rcases h with h | ⟨heq, _⟩
        · exact absurd h h1
        · rw [heq] at h2
          rw [optStrLt_irrefl] at h2
          cases h2
    · rw [if_neg h2]
      have h1f : optStrLt a.customer_id b.customer_id = false := by
        rwa [Bool.not_eq_true] at h1
      have h2f : optStrLt b.customer_id a.customer_id = false := by
        rwa [Bool.not_eq_true] at h2
      have heq : a.customer_id = b.customer_id := optStrLt_conn h1f h2f
      constructor
      · intro h; exact Or.inr ⟨heq, h⟩
      · intro h
        rcases h with h | ⟨_, hts⟩
        · exact absurd h h1
        · exact hts

theorem customerLe_total (a b : CustomerRow) :
    customerLe a b = true ∨ customerLe b a = true := by
  by_cases h1 : optStrLt a.customer_id b.customer_id = true
  · exact Or.inl ((customerLe_iff a b).mpr (Or.inl h1))
  · by_cases h2 : optStrLt b.customer_id a.customer_id = true
    · exact Or.inr ((customerLe_iff b a).mpr (Or.inl h2))
    · have h1f : optStrLt a.customer_id b.customer_id = false := by
        rwa [Bool.not_eq_true] at h1
      have h2f : optStrLt b.customer_id a.customer_id = false := by
        rwa [Bool.not_eq_true] at h2
      have heq : a.customer_id = b.customer_id := optStrLt_conn h1f h2f
      rcases optTsDescLe_total a.created_ts b.created_ts with h | h
      · exact Or.inl ((customerLe_iff a b).mpr (Or.inr ⟨heq, h⟩))
      · exact Or.inr ((customerLe_iff b a).mpr (Or.inr ⟨heq.symm, h⟩))

theorem customerLe_trans (a b c : CustomerRow) (hab : customerLe a b = true)
    (hbc : customerLe b c = true) : customerLe a c = true := by
  rcases (customerLe_iff a b).mp hab with h1 | ⟨he1, ht1⟩
  · rcases (customerLe_iff b c).mp hbc with h2 | ⟨he2, ht2⟩
    · exact (customerLe_iff a c).mpr (Or.inl (optStrLt_trans h1 h2))
    · exact (customerLe_iff a c).mpr (Or.inl (he2 ▸ h1))
  · rcases (customerLe_iff b c).mp hbc with h2 | ⟨he2, ht2⟩
    · exact (customerLe_iff a c).mpr (Or.inl (he1 ▸ h2))
    · exact (customerLe_iff a c).mpr
        (Or.inr ⟨he1.trans he2, optTsDescLe_trans ht1 ht2⟩)

/-! ### Filter/dedup interaction lemmas -/

theorem filter_map_comm {α β : Type} (f : α → β) (p : β → Bool) (l : List α) :
    (l.map f).filter p = (l.filter (fun a => p (f a))).map f := by
  induction l with
  | nil => rfl
  | cons a as ih =>
    simp only [List.map_cons, List.filter_cons]
    by_cases h : p (f a) = true
    · rw [if_pos h, if_pos h, List.map_cons, ih]
    · rw [if_neg h, if_neg h, ih]

theorem filter_dropDupAux {α κ : Type} [DecidableEq κ] (key : α → κ) (k : κ) :
    ∀ (seen : List κ) (l : List α),
      (dropDupAux key seen l).filter (fun a => decide (key a = k)) =
        if k ∈ seen then [] else (l.filter (fun a => decide (key a = k))).take 1 := by
  intro seen l
  induction l generalizing seen with
  | nil =>
    unfold dropDupAux
    by_cases h : k ∈ seen
    · rw [if_pos h]; rfl
    · rw [if_neg h]; rfl
  | cons a as ih =>
    unfold dropDupAux
    by_cases hk : key a ∈ seen
    · rw [if_pos hk, ih seen]
      by_cases h : k ∈ seen
      · rw [if_pos h, if_pos h]
      · rw [if_neg h, if_neg h]
        have hne : ¬ (key a = k) := fun he => h (he ▸ hk)
        rw [List.filter_cons, if_neg (by simpa using hne)]
    · rw [if_neg hk, List.filter_cons]
      by_cases he : key a = k
      · rw [if_pos (by simpa using he), ih (key a :: seen),
          if_pos (List.mem_cons.mpr (Or.inl he.symm))]
        have hknot : ¬ (k ∈ seen) := fun hin => hk (he ▸ hin)
        rw [if_neg hknot, List.filter_cons, if_pos (by simpa using he)]
        rfl
      · rw [if_neg (by simpa using he), ih (key a :: seen)]
        have hiff : (k ∈ key a :: seen) ↔ k ∈ seen := by
          constructor
          · intro h
            rcases List.mem_cons.mp h with h | h
            · exact absurd h.symm he
            · exact h
          · exact fun h => List.mem_cons.mpr (Or.inr h)
        by_cases h : k ∈ seen
        · rw [if_pos (hiff.mpr h), if_pos h]
        · rw [if_neg (fun hin => h (hiff.mp hin)), if_neg h,
            List.filter_cons, if_neg (by simpa using he)]

theorem filter_drop_duplicate_rows {α κ : Type} [DecidableEq κ] (key : α → κ)
    (k : κ) (l : List α) :
    (drop_duplicate_rows key l).filter (fun a => decide (key a = k)) =
      (l.filter (fun a => decide (key a = k))).take 1 := by
  unfold drop_duplicate_rows
  rw [filter_dropDupAux key k [] l, if_neg (List.not_mem_nil k)]

theorem perm_pair {α : Type} {l : List α} {x y : α} (h : l.Perm [x, y]) :
    l = [x, y] ∨ l = [y, x] := by
  have hlen : l.length = 2 := by rw [h.length_eq]; rfl
  cases l with
  | nil => simp at hlen
  | cons a l1 =>
    cases l1 with
    | nil => simp at hlen
    | cons b l2 =>
      cases l2 with
      | cons c l3 => simp at hlen
      | nil =>
        have ha : a = x ∨ a = y := by
          have := h.subset (List.mem_cons_self a [b])
          simpa using this
        have hb : b = x ∨ b = y := by
          have := h.subset (List.mem_cons_of_mem a (List.mem_cons_self b []))
          simpa using this
        rcases ha with ha | ha
        · have hby : b = y := by
            have h3 : (x :: [b] : List α).Perm (x :: [y]) := ha ▸ h
            have h2 : ([b] : List α).Perm [y] := h3.cons_inv
            simpa using h2.subset (List.mem_cons_self b [])
          left
          rw [ha, hby]
        · rcases hb with hb | hb
          · right
            rw [ha, hb]
          · have hx : x = y := by
              have hmem := h.symm.subset (List.mem_cons_self x [y])
              rcases (by simpa using hmem : x = a ∨ x = b) with h2 | h2
              · rw [h2, ha]
              · rw [h2, hb]
            left
            rw [ha, hb, hx]

/-! ### Claim C2 — customers dedup keeps the latest row -/

/-- C2: when a customers table has exactly two rows sharing a
`customer_id` and their `created_ts` parse to two different (non-null)
timestamps, the cleaner outputs exactly one row for that id — the
cleaned version of the row with the later `created_ts`. -/
theorem customers_dedup_latest (t : List RawCustomerRow) (cid : String)
    (r1 r2 : RawCustomerRow) (t1 t2 : ℤ)
    (hfilt : t.filter (fun r => decide (r.customer_id = some cid)) = [r1, r2])
    (h1 : pd_to_datetime_opt r1.created_ts = some t1)
    (h2 : pd_to_datetime_opt r2.created_ts = some t2)
    (hne : t1 ≠ t2) :
    (process_customers_table t).filter
        (fun r => decide (r.customer_id = some cid)) =
      [cleanCustomerRow (if t2 < t1 then r1 else r2)] := by
  have hr1p : r1.customer_id = some cid := by
    have : r1 ∈ t.filter (fun r => decide (r.customer_id = some cid)) := by
      rw [hfilt]; exact List.mem_cons_self _ _
    simpa using (List.mem_filter.mp this).2
  have hr2p : r2.customer_id = some cid := by
    have : r2 ∈ t.filter (fun r => decide (r.customer_id = some cid)) := by
      rw [hfilt]; exact List.mem_cons_of_mem _ (List.mem_cons_self _ _)
    simpa using (List.mem_filter.mp this).2
  -- Step A: the cleaned, id-filtered rows are exactly the two cleaned rows.
  have hA : (((t.filter (fun r => r.customer_id.isSome)).map cleanCustomerRow).filter
        (fun r => decide (r.customer_id = some cid)))
      = [cleanCustomerRow r1, cleanCustomerRow r2] := by
    rw [filter_map_comm]
    have hcongr : ∀ x ∈ t.filter (fun r => r.customer_id.isSome),
        (decide ((cleanCustomerRow x).customer_id = some cid)) =
          (decide (x.customer_id = some cid)) := fun x _ => rfl
    rw [List.filter_congr hcongr, List.filter_filter]
    have hcongr2 : ∀ x ∈ t,
        (decide (x.customer_id = some cid) && x.customer_id.isSome) =
          (decide (x.customer_id = some cid)) := by
      intro x _
      by_cases h : x.customer_id = some cid
      · simp [h]
      · simp [h]
    rw [List.filter_congr hcongr2, hfilt]
    rfl
  -- Step B: the sorted list, filtered, is the two cleaned rows in
  -- latest-first order.
  have hperm : ((sort_rows_by customerLe
        ((t.filter (fun r => r.customer_id.isSome)).map cleanCustomerRow)).filter
          (fun r => decide (r.customer_id = some cid))).Perm
      [cleanCustomerRow r1, cleanCustomerRow r2] := by
    have hp2 := (List.perm_insertionSort
      (fun a b : CustomerRow => customerLe a b = true)
      ((t.filter (fun r => r.customer_id.isSome)).map cleanCustomerRow)).filter
      (fun r => decide (r.customer_id = some cid))
    rw [hA] at hp2
    exact hp2
  have hsorted : List.Pairwise (fun a b : CustomerRow => customerLe a b = true)
      (sort_rows_by customerLe
        ((t.filter (fun r => r.customer_id.isSome)).map cleanCustomerRow)) := by
    haveI : IsTotal CustomerRow (fun a b => customerLe a b = true) := ⟨customerLe_total⟩
    haveI : IsTrans CustomerRow (fun a b => customerLe a b = true) := ⟨customerLe_trans⟩
    exact List.sorted_insertionSort _ _
  have hsf : List.Pairwise (fun a b : CustomerRow => customerLe a b = true)
      ((sort_rows_by customerLe
        ((t.filter (fun r => r.customer_id.isSome)).map cleanCustomerRow)).filter
          (fun r => decide (r.customer_id = some cid))) :=
    hsorted.sublist (List.filter_sublist _)
  have hperm2 : ((sort_rows_by customerLe
        ((t.filter (fun r => r.customer_id.isSome)).map cleanCustomerRow)).filter
          (fun r => decide (r.customer_id = some cid))).Perm
      [cleanCustomerRow (if t2 < t1 then r1 else r2),
       cleanCustomerRow (if t2 < t1 then r2 else r1)] := by
    by_cases hlt : t2 < t1
    · rw [if_pos hlt, if_pos hlt]
      exact hperm
    · rw [if_neg hlt, if_neg hlt]
      exact hperm.trans (List.Perm.swap _ _ _)
  -- The loser never sorts before the winner.
  have hnotle : ¬ (customerLe (cleanCustomerRow (if t2 < t1 then r2 else r1))
      (cleanCustomerRow (if t2 < t1 then r1 else r2)) = true) := by
    intro hcon
    rcases (customerLe_iff _ _).mp hcon with hlt | ⟨_, hts⟩
    · have hz : (cleanCustomerRow (if t2 < t1 then r2 else r1)).customer_id = some cid := by
        by_cases h : t2 < t1
        · rw [if_pos h]; exact hr2p
        · rw [if_neg h]; exact hr1p
      have hw : (cleanCustomerRow (if t2 < t1 then r1 else r2)).customer_id = some cid := by
        by_cases h : t2 < t1
        · rw [if_pos h]; exact hr1p
        · rw [if_neg h]; exact hr2p
      rw [hz, hw] at hlt
      have : charsLt cid.data cid.data = true := hlt
      rw [charsLt_irrefl] at this
      cases this
    · have hzts : (cleanCustomerRow (if t2 < t1 then r2 else r1)).created_ts =
          some (if t2 < t1 then t2 else t1) := by
        by_cases h : t2 < t1
        · rw [if_pos h, if_pos h]; exact h2
        · rw [if_neg h, if_neg h]; exact h1
      have hwts : (cleanCustomerRow (if t2 < t1 then r1 else r2)).created_ts =
          some (if t2 < t1 then t1 else t2) := by
        by_cases h : t2 < t1
        · rw [if_pos h, if_pos h]; exact h1
        · rw [if_neg h, if_neg h]; exact h2
      rw [hzts, hwts] at hts
      have : decide ((if t2 < t1 then t1 else t2) ≤ (if t2 < t1 then t2 else t1)) = true := hts
      rw [decide_eq_true_eq] at this
      by_cases h : t2 < t1
      · rw [if_pos h, if_pos h] at this; omega
      · rw [if_neg h, if_neg h] at this; omega
  have hfq : (sort_rows_by customerLe
        ((t.filter (fun r => r.customer_id.isSome)).map cleanCustomerRow)).filter
          (fun r => decide (r.customer_id = some cid))
      = [cleanCustomerRow (if t2 < t1 then r1 else r2),
         cleanCustomerRow (if t2 < t1 then r2 else r1)] := by
    rcases perm_pair hperm2 with h | h
    · exact h
    · exfalso
      rw [h] at hsf
      have := (List.pairwise_cons.mp hsf).1
      exact hnotle (this _ (List.mem_cons_self _ _))
  -- Step C: dedup keeps the first (= latest) of the two.
  have hdd := filter_drop_duplicate_rows (fun r : CustomerRow => r.customer_id)
    (some cid)
    (sort_rows_by customerLe
      ((t.filter (fun r => r.customer_id.isSome)).map cleanCustomerRow))
  have hpc : (process_customers_table t).filter
      (fun r => decide (r.customer_id = some cid)) =
      ((sort_rows_by customerLe
        ((t.filter (fun r => r.customer_id.isSome)).map cleanCustomerRow)).filter
          (fun r => decide (r.customer_id = some cid))).take 1 := hdd
  rw [hpc, hfq]
  rfl

theorem customers_dedup_latest_witness :
    (process_customers_table
        [{ customer_id := some "c1", state := some "SP", city := some "Niterói",
           created_ts := some "2024-01-02 00:00:00", phone := none },
         { customer_id := some "c1", state := some "RJ", city := some "Rio",
           created_ts := some "2024-01-05 00:00:00", phone := none }]).filter
        (fun r => decide (r.customer_id = some "c1")) =
      [cleanCustomerRow
        (if (1704412800 : ℤ) < 1704153600 then
          { customer_id := some "c1", state := some "SP", city := some "Niterói",
            created_ts := some "2024-01-02 00:00:00", phone := none }
        else
          { customer_id := some "c1", state := some "RJ", city := some "Rio",
            created_ts := some "2024-01-05 00:00:00", phone := none })] :=
  customers_dedup_latest
    [{ customer_id := some "c1", state := some "SP", city := some "Niterói",
       created_ts := some "2024-01-02 00:00:00", phone := none },
     { customer_id := some "c1", state := some "RJ", city := some "Rio",
       created_ts := some "2024-01-05 00:00:00", phone := none }]
    "c1"
    { customer_id := some "c1", state := some "SP", city := some "Niterói",
      created_ts := some "2024-01-02 00:00:00", phone := none }
    { customer_id := some "c1", state := some "RJ", city := some "Rio",
      created_ts := some "2024-01-05 00:00:00", phone := none }
    1704153600 1704412800 (by decide) (by decide) (by decide) (by decide)

/-! ### Character lemmas for the string normalizer -/

theorem char_toNat_ofNat {n : ℕ} (h : n.isValidChar) : (Char.ofNat n).toNat = n := by
  unfold Char.ofNat
  rw [dif_pos h]
  rfl

theorem isValidChar_small {n : ℕ} (h : n < 55296) : n.isValidChar := Or.inl h

theorem pyLowerChar_toNat (c : Char) :
    (pyLowerChar c).toNat =
      if upperCode c.toNat = true then c.toNat + 32 else c.toNat := by
  unfold pyLowerChar
  by_cases h : upperCode c.toNat = true
  · rw [if_pos h, if_pos h]
    apply char_toNat_ofNat
    apply isValidChar_small
    unfold upperCode at h
    rw [decide_eq_true_eq] at h
    omega
  · rw [if_neg h, if_neg h]

theorem pyLowerChar_space (c : Char) : pyIsSpace (pyLowerChar c) = pyIsSpace c := by
  unfold pyIsSpace
  rw [pyLowerChar_toNat]
  by_cases h : upperCode c.toNat = true
  · rw [if_pos h]
    unfold upperCode at h
    rw [decide_eq_true_eq] at h
    rw [decide_eq_decide]
    omega
  · rw [if_neg h]

theorem pyLowerChar_isMn (c : Char) : isMn (pyLowerChar c) = isMn c := by
  unfold isMn
  rw [pyLowerChar_toNat]
  by_cases h : upperCode c.toNat = true
  · rw [if_pos h]
    unfold upperCode at h
    rw [decide_eq_true_eq] at h
    rw [decide_eq_decide]
    omega
  · rw [if_neg h]

theorem pyLowerChar_eq_self {d : Char} (h : upperCode d.toNat = false) :
    pyLowerChar d = d := by
  unfold pyLowerChar
  rw [h]
  simp

theorem pyLowerChar_idem (c : Char) : pyLowerChar (pyLowerChar c) = pyLowerChar c := by
  apply pyLowerChar_eq_self
  rw [pyLowerChar_toNat]
  by_cases h : upperCode c.toNat = true
  · rw [if_pos h]
    unfold upperCode at h
    rw [decide_eq_true_eq] at h
    unfold upperCode
    rw [decide_eq_false_iff_not]
    omega
  · rw [if_neg h]
    rwa [Bool.not_eq_true] at h

/-! ### Strip lemmas for the string normalizer -/

theorem dropWhile_head_shape (p : Char → Bool) :
    ∀ l : List Char, l.dropWhile p = [] ∨
      ∃ h t, l.dropWhile p = h :: t ∧ p h = false := by
  intro l
  induction l with
  | nil => exact Or.inl rfl
  | cons a as ih =>
    rw [List.dropWhile_cons]
    by_cases h : p a = true
    · rw [if_pos h]
      exact ih
    · rw [if_neg h]
      exact Or.inr ⟨a, as, rfl, Bool.not_eq_true (p a) ▸ h⟩

theorem mem_dropWhile_of_neg (p : Char → Bool) :
    ∀ (l : List Char) (c : Char), c ∈ l → p c = false → c ∈ l.dropWhile p := by
  intro l
  induction l with
  | nil => intro c hc _; cases hc
  | cons a as ih =>
    intro c hc hpc
    rw [List.dropWhile_cons]
    by_cases h : p a = true
    · rw [if_pos h]
      rcases List.mem_cons.mp hc with rfl | hmem
      · rw [hpc] at h
        cases h
      · exact ih c hmem hpc
    · rw [if_neg h]
      exact hc

theorem dropWhile_append_singleton (p : Char → Bool) (x : Char) (hx : p x = false) :
    ∀ l : List Char, (l ++ [x]).dropWhile p = l.dropWhile p ++ [x] := by
  intro l
  induction l with
  | nil =>
    simp only [List.nil_append, List.dropWhile_nil, List.dropWhile_cons]
    rw [if_neg (by rw [hx]; exact fun hc => Bool.noConfusion hc)]
  | cons a as ih =>
    rw [List.cons_append, List.dropWhile_cons, List.dropWhile_cons]
    by_cases h : p a = true
    · rw [if_pos h, if_pos h, ih]
    · rw [if_neg h, if_neg h, List.cons_append]

theorem mem_of_head? {α : Type} {l : List α} {x : α} (h : l.head? = some x) : x ∈ l := by
  cases l with
  | nil => cases h
  | cons a as =>
    have h2 : a = x := by injection h
    rw [← h2]
    exact List.mem_cons_self a as

theorem mem_of_getLast? {α : Type} {l : List α} {x : α} (h : l.getLast? = some x) :
    x ∈ l := by
  rw [← List.head?_reverse] at h
  exact List.mem_reverse.mp (mem_of_head? h)

theorem pyStrip_shape (l : List Char) (hex : ∃ c ∈ l, pyIsSpace c = false) :
    ∃ h u, pyStrip l = h :: u ∧ pyIsSpace h = false ∧
      (∀ x, (pyStrip l).getLast? = some x → pyIsSpace x = false) := by
  rcases dropWhile_head_shape pyIsSpace l with hempty | ⟨h, t, hd, hh⟩
  · exfalso
    rcases hex with ⟨c, hc, hcs⟩
    have hmem : c ∈ l.dropWhile pyIsSpace := mem_dropWhile_of_neg pyIsSpace l c hc hcs
    rw [hempty] at hmem
    cases hmem
  · have hrev : (l.dropWhile pyIsSpace).reverse = t.reverse ++ [h] := by
      rw [hd, List.reverse_cons]
    have hstrip : pyStrip l = h :: (t.reverse.dropWhile pyIsSpace).reverse := by
      unfold pyStrip
      rw [hrev, dropWhile_append_singleton pyIsSpace h hh, List.reverse_append]
      rfl
    refine ⟨h, (t.reverse.dropWhile pyIsSpace).reverse, hstrip, hh, ?_⟩
    intro x hx
    rw [hstrip] at hx
    rcases dropWhile_head_shape pyIsSpace t.reverse with he2 | ⟨h2, t2, hd2, hh2⟩
    · rw [he2] at hx
      cases hx
      exact hh
    · rw [hd2, List.reverse_cons] at hx
      rw [← List.cons_append, List.getLast?_concat] at hx
      cases hx
      exact hh2

theorem pyStrip_eq_self {l : List Char} (hne : l ≠ [])
    (hh : ∀ x, l.head? = some x → pyIsSpace x = false)
    (hg : ∀ x, l.getLast? = some x → pyIsSpace x = false) :
    pyStrip l = l := by
  cases l with
  | nil => exact absurd rfl hne
  | cons a as =>
    have ha : pyIsSpace a = false := hh a rfl
    unfold pyStrip
    rw [List.dropWhile_cons, if_neg (by rw [ha]; exact fun hc => Bool.noConfusion hc)]
    suffices hsuf : (a :: as).reverse.dropWhile pyIsSpace = (a :: as).reverse by
      rw [hsuf, List.reverse_reverse]
    cases hr : (a :: as).reverse with
    | nil =>
      exfalso
      have := congrArg List.length hr
      simp at this
    | cons b bs =>
      have hb : (a :: as).getLast? = some b := by
        rw [← List.head?_reverse, hr]
        rfl
      have hbs : pyIsSpace b = false := hg b hb
      rw [List.dropWhile_cons, if_neg (by rw [hbs]; exact fun hc => Bool.noConfusion hc)]

/-! ### NFD lemmas for the string normalizer -/

theorem lookup_mem {β : Type} :
    ∀ (tbl : List (Char × β)) (c : Char) (v : β),
      tbl.lookup c = some v → (c, v) ∈ tbl := by
  intro tbl
  induction tbl with
  | nil => intro c v h; cases h
  | cons p t ih =>
    intro c v h
    cases p with
    | mk k b =>
      simp only [List.lookup] at h
      by_cases hc : (c == k) = true
      · rw [hc] at h
        simp only at h
        have hck : c = k := eq_of_beq hc
        cases h
        exact List.mem_cons.mpr (Or.inl (by rw [hck]))
      · rw [Bool.not_eq_true] at hc
        rw [hc] at h
        simp only at h
        exact List.mem_cons_of_mem _ (ih c v h)

theorem nfdTable_entries : ∀ p ∈ nfdTable,
    removeMn p.2 = [(removeMn p.2).headD p.1] ∧
    (pyLowerChar p.1 = p.1 →
      isMn ((removeMn p.2).headD p.1) = false ∧
      pyLowerChar ((removeMn p.2).headD p.1) = (removeMn p.2).headD p.1 ∧
      nfdTable.lookup ((removeMn p.2).headD p.1) = none ∧
      pyIsSpace ((removeMn p.2).headD p.1) = false ∧
      pyIsSpace p.1 = false) := by
  decide

theorem removeMn_nfdChar (c : Char) (hc : isMn c = false) :
    removeMn (nfdChar c) = [baseChar c] := by
  have hb : baseChar c = (removeMn (nfdChar c)).headD c := rfl
  cases hl : nfdTable.lookup c with
  | none =>
    have h1 : nfdChar c = [c] := by unfold nfdChar; rw [hl]
    have h2 : removeMn [c] = [c] := by
      unfold removeMn
      simp [hc]
    rw [hb, h1, h2]
    rfl
  | some ds =>
    have h1 : nfdChar c = ds := by unfold nfdChar; rw [hl]
    rw [hb, h1]
    exact (nfdTable_entries (c, ds) (lookup_mem nfdTable c ds hl)).1

theorem baseChar_props (c : Char) (hmn : isMn c = false) (hlow : pyLowerChar c = c) :
    isMn (baseChar c) = false ∧ pyLowerChar (baseChar c) = baseChar c ∧
      nfdChar (baseChar c) = [baseChar c] ∧
      pyIsSpace (baseChar c) = pyIsSpace c := by
  cases hl : nfdTable.lookup c with
  | none =>
    have h1 : nfdChar c = [c] := by unfold nfdChar; rw [hl]
    have hbc : baseChar c = c := by
      unfold baseChar
      rw [h1]
      unfold removeMn
      simp [hmn]
    rw [hbc]
    exact ⟨hmn, hlow, h1, rfl⟩
  | some ds =>
    have hmem := lookup_mem nfdTable c ds hl
    have hent := (nfdTable_entries (c, ds) hmem).2 hlow
    have h1 : nfdChar c = ds := by unfold nfdChar; rw [hl]
    have hbc : baseChar c = (removeMn ds).headD c := by
      unfold baseChar
      rw [h1]
    rw [hbc]
    refine ⟨hent.1, hent.2.1, ?_, ?_⟩
    · unfold nfdChar
      rw [hent.2.2.1]
    · rw [hent.2.2.2.1, hent.2.2.2.2]

theorem removeMn_nfdList (l : List Char) (h : ∀ c ∈ l, isMn c = false) :
    removeMn (nfdList l) = l.map baseChar := by
  induction l with
  | nil => rfl
  | cons c cs ih =>
    have hc := h c (List.mem_cons_self c cs)
    have hstep : nfdList (c :: cs) = nfdChar c ++ nfdList cs := rfl
    rw [hstep]
    unfold removeMn
    rw [List.filter_append]
    have h1 := removeMn_nfdChar c hc
    unfold removeMn at h1
    rw [h1, List.map_cons, List.singleton_append]
    have h2 := ih (fun x hx => h x (List.mem_cons_of_mem c hx))
    unfold removeMn at h2
    rw [h2]

theorem nfdList_eq_self {l : List Char} (h : ∀ c ∈ l, nfdChar c = [c]) :
    nfdList l = l := by
  induction l with
  | nil => rfl
  | cons c cs ih =>
    have hstep : nfdList (c :: cs) = nfdChar c ++ nfdList cs := rfl
    rw [hstep, h c (List.mem_cons_self c cs),
      ih (fun x hx => h x (List.mem_cons_of_mem c hx)), List.singleton_append]

theorem map_eq_self {α : Type} {l : List α} {f : α → α} (h : ∀ c ∈ l, f c = c) :
    l.map f = l := by
  induction l with
  | nil => rfl
  | cons c cs ih =>
    rw [List.map_cons, h c (List.mem_cons_self c cs),
      ih (fun x hx => h x (List.mem_cons_of_mem c hx))]

theorem removeMn_eq_self {l : List Char} (h : ∀ c ∈ l, isMn c = false) :
    removeMn l = l := by
  unfold removeMn
  rw [List.filter_eq_self]
  intro a ha
  rw [h a ha]
  rfl

theorem getLast?_map_eq {α β : Type} (f : α → β) (l : List α) :
    (l.map f).getLast? = l.getLast?.map f := by
  rw [← List.head?_reverse, ← List.map_reverse, List.head?_map, List.head?_reverse]

theorem normCore_idem (s : List Char)
    (hmn : ∀ c ∈ s, isMn c = false)
    (hsp : ∃ c ∈ s, pyIsSpace c = false) :
    normCore (normCore s) = normCore s ∧ normCore s ≠ [] := by
  obtain ⟨h0, u0, hshape, hh0, hg0⟩ := pyStrip_shape s hsp
  have hl0mn : ∀ c ∈ pyStrip s, isMn c = false := fun c hc => hmn c (mem_of_mem_pyStrip hc)
  have hl1mn : ∀ c ∈ (pyStrip s).map pyLowerChar, isMn c = false := by
    intro c hc
    rcases List.mem_map.mp hc with ⟨c0, hc0, rfl⟩
    rw [pyLowerChar_isMn]
    exact hl0mn c0 hc0
  have hl1low : ∀ c ∈ (pyStrip s).map pyLowerChar, pyLowerChar c = c := by
    intro c hc
    rcases List.mem_map.mp hc with ⟨c0, _, rfl⟩
    exact pyLowerChar_idem c0
  have hm : normCore s = ((pyStrip s).map pyLowerChar).map baseChar := by
    unfold normCore
    exact removeMn_nfdList _ hl1mn
  have hmchar : ∀ x ∈ normCore s, isMn x = false ∧ pyLowerChar x = x ∧ nfdChar x = [x] := by
    intro x hx
    rw [hm] at hx
    rcases List.mem_map.mp hx with ⟨c, hc, rfl⟩
    obtain ⟨p1, p2, p3, _⟩ := baseChar_props c (hl1mn c hc) (hl1low c hc)
    exact ⟨p1, p2, p3⟩
  have hmshape : normCore s = baseChar (pyLowerChar h0) :: (u0.map pyLowerChar).map baseChar := by
    rw [hm, hshape]
    rfl
  have hne : normCore s ≠ [] := by
    rw [hmshape]
    exact List.cons_ne_nil _ _
  have hh0mem : h0 ∈ pyStrip s := by
    rw [hshape]
    exact List.mem_cons_self h0 u0
  have hh0mn : isMn (pyLowerChar h0) = false := by
    rw [pyLowerChar_isMn]
    exact hmn h0 (mem_of_mem_pyStrip hh0mem)
  have hheadns : pyIsSpace (baseChar (pyLowerChar h0)) = false := by
    rw [(baseChar_props (pyLowerChar h0) hh0mn (pyLowerChar_idem h0)).2.2.2,
      pyLowerChar_space]
    exact hh0
  have hheads : ∀ x, (normCore s).head? = some x → pyIsSpace x = false := by
    intro x hx
    rw [hmshape] at hx
    have hx2 : baseChar (pyLowerChar h0) = x := by injection hx
    rw [← hx2]
    exact hheadns
  have hlastns : ∀ x, (normCore s).getLast? = some x → pyIsSpace x = false := by
    intro x hx
    rw [hm, getLast?_map_eq, getLast?_map_eq] at hx
    cases hgl : (pyStrip s).getLast? with
    | none =>
      rw [hgl] at hx
      cases hx
    | some g =>
      rw [hgl] at hx
      simp only [Option.map_some'] at hx
      have hgs : pyIsSpace g = false := hg0 g hgl
      have hgmn : isMn (pyLowerChar g) = false := by
        rw [pyLowerChar_isMn]
        exact hmn g (mem_of_mem_pyStrip (mem_of_getLast? hgl))
      have hx2 : baseChar (pyLowerChar g) = x := by injection hx
      rw [← hx2,
        (baseChar_props (pyLowerChar g) hgmn (pyLowerChar_idem g)).2.2.2,
        pyLowerChar_space]
      exact hgs
  refine ⟨?_, hne⟩
  have hexp : normCore (normCore s) =
      removeMn (nfdList ((pyStrip (normCore s)).map pyLowerChar)) := rfl
  rw [hexp, pyStrip_eq_self hne hheads hlastns,
    map_eq_self (fun c hc => (hmchar c hc).2.1),
    nfdList_eq_self (fun c hc => (hmchar c hc).2.2)]
  exact removeMn_eq_self (fun c hc => (hmchar c hc).1)

/-! ### Claim C9 — the string normalizer (corrected: not idempotent on
whitespace-only or combining-mark inputs) -/

/-- C9 counterexample: the normalizer is not idempotent.  `" "` is not
caught by the null/empty check, so it normalizes to the empty string
`""`, and a second application turns `""` into null. -/
theorem clean_string_not_idempotent :
    clean_string (clean_string (some " ")) ≠ clean_string (some " ") ∧
    clean_string (some " ") = some "" ∧
    clean_string (clean_string (some " ")) = none := by
  refine ⟨by decide, by decide, by decide⟩

/-- C9 (amended): the string normalizer is idempotent on every string
containing at least one non-whitespace character and no standalone
combining-mark character (and on null/empty input, which maps to null);
it strips the common Portuguese diacritics, e.g. `"São Paulo"` →
`"sao paulo"`. -/
theorem clean_string_amended :
    (∀ s : String, (∀ c ∈ s.data, isMn c = false) →
      (∃ c ∈ s.data, pyIsSpace c = false) →
      clean_string (clean_string (some s)) = clean_string (some s)) ∧
    clean_string (some "São Paulo") = some "sao paulo" ∧
    clean_string none = none ∧
    clean_string (some "") = none := by
  refine ⟨fun s hmn hsp => ?_, by decide, rfl, by decide⟩
  obtain ⟨hidem, hne⟩ := normCore_idem s.data hmn hsp
  have hsne : s ≠ "" := by
    rcases hsp with ⟨c, hc, _⟩
    intro he
    rw [he] at hc
    cases hc
  have h1 : clean_string (some s) = some (String.mk (normCore s.data)) := by
    simp only [clean_string, if_neg hsne]
  rw [h1]
  have hmkne : String.mk (normCore s.data) ≠ "" := by
    intro he
    exact hne (congrArg String.data he)
  simp only [clean_string, if_neg hmkne]
  rw [string_mk_data, hidem]

theorem clean_string_amended_witness :
    clean_string (clean_string (some "São Paulo")) = clean_string (some "São Paulo") :=
  clean_string_amended.1 "São Paulo" (by decide) (by decide)
